import Mathlib

/-!
# Code Review Assistant: a shallow embedding of `src/App.jsx`

The component `App` keeps six pieces of React state (`code`, `language`,
`review`, `isLoading`, `error`, `activeTab`).  Its handlers are embedded as
functions producing the list of state-setter calls and network requests
they perform, in program order; applying that list to a state gives the
state React commits once the handler (or the continuation after an
`await`) has run.

JavaScript strings are embedded as `String`.  Values coming from the
network are embedded as `Json`; `Option Json` adds `undefined` (`none`).
What the JavaScript engine decides (`JSON.parse`, the wording of engine
errors) is a parameter, `Engine`.  `console.error` is not modelled.
-/

namespace CodeReviewAssistant

/-! ## JavaScript values -/

/-- A value produced by `JSON.parse` or `response.json()`.  A number is
given by what the program can observe of it: whether it is zero (which
decides its truthiness and the test `=== 0`) and the text `String(n)`
gives for it. -/
inductive Json where
  | null
  | bool (b : Bool)
  | num (isZero : Bool) (shown : String)
  | str (s : String)
  | arr (items : List Json)
  | obj (fields : List (String × Json))

/-- JavaScript truthiness of a JSON value (`!!v`). -/
def Json.truthy : Json → Bool
  | .null => false
  | .bool b => b
  | .num isZero _ => !isZero
  | .str s => s != ""
  | .arr _ => true
  | .obj _ => true

/-- Truthiness of a possibly `undefined` value. -/
def truthyOpt : Option Json → Bool
  | none => false
  | some v => v.truthy

mutual
/-- The string conversion `String(v)` used by template literals and by
`JSON.parse` on its argument. -/
def Json.toJsString : Json → String
  | .null => "null"
  | .bool b => if b then "true" else "false"
  | .num _ shown => shown
  | .str s => s
  | .arr items => Json.joinItems items
  | .obj _ => "[object Object]"
/-- The comma join `Array.prototype.join` performs for `String(array)`. -/
def Json.joinItems : List Json → String
  | [] => ""
  | [x] => Json.elemString x
  | x :: y :: rest => Json.elemString x ++ "," ++ Json.joinItems (y :: rest)
/-- One element inside `join`: `null` contributes the empty string. -/
def Json.elemString : Json → String
  | .null => ""
  | v => Json.toJsString v
end

/-- String conversion of a possibly `undefined` value. -/
def templateString : Option Json → String
  | none => "undefined"
  | some v => v.toJsString

/-- Member access `v.k` on a value that is neither `null` nor `undefined`,
for the keys the program reads by name (`candidates`, `content`, `parts`,
`text`, `error`, `message`, `overallAssessment`, `readability`,
`modularity`, `bugs`, `suggestion`, `codeSnippet`): only objects carry
them.  The key `length` is read through `lengthIsZero`. -/
def Json.prop (k : String) : Json → Option Json
  | .obj fields => fields.lookup k
  | _ => none

/-- Element access `v[0]` on a value that is neither `null` nor
`undefined`. -/
def Json.index0 : Json → Option Json
  | .arr items => items.head?
  | .str s => s.data.head?.map (fun c => Json.str (String.singleton c))
  | .obj fields => fields.lookup "0"
  | _ => none

/-- Optional chaining `base?.access`: `undefined` when the base is `null`
or `undefined`. -/
def optChain (base : Option Json) (access : Json → Option Json) : Option Json :=
  match base with
  | none => none
  | some .null => none
  | some v => access v

/-- What the JavaScript engine contributes. -/
structure Engine where
  /-- The builtin `JSON.parse`: the parsed value, or the `message` of the
  `SyntaxError` it throws. -/
  jsonParse : String → Except String Json
  /-- The `message` of the `TypeError` thrown when property `key` is read
  from `null` (`isNull = true`) or from `undefined`. -/
  nullishReadMessage : (isNull : Bool) → (key : String) → String
  /-- The `message` of the `TypeError` thrown when `callee`, which is not a
  function, is called. -/
  notFunctionMessage : (callee : String) → String

/-- Plain member access `base.k`, which throws on `null` and `undefined`. -/
def readProp (eng : Engine) (base : Option Json) (k : String) : Except String (Option Json) :=
  match base with
  | none => .error (eng.nullishReadMessage false k)
  | some .null => .error (eng.nullishReadMessage true k)
  | some v => .ok (v.prop k)

/-! ## Strings -/

/-- The code points `String.prototype.trim` strips: ECMAScript `WhiteSpace`
and `LineTerminator`. -/
def isJsWhiteSpace (c : Char) : Bool :=
  let n := c.toNat
  n == 0x09 || n == 0x0A || n == 0x0B || n == 0x0C || n == 0x0D || n == 0x20 ||
  n == 0xA0 || n == 0x1680 || (0x2000 ≤ n && n ≤ 0x200A) || n == 0x2028 ||
  n == 0x2029 || n == 0x202F || n == 0x205F || n == 0x3000 || n == 0xFEFF

/-- The method `String.prototype.trim`. -/
def jsTrim (s : String) : String :=
  String.mk ((s.data.dropWhile isJsWhiteSpace).reverse.dropWhile isJsWhiteSpace).reverse

/-- The method `String.prototype.toUpperCase` on ASCII text (the only text
the program upper-cases is its three category titles). -/
def toUpperCase (s : String) : String :=
  String.mk (s.data.map Char.toUpper)

/-- Splitting a character sequence at every line feed; an empty sequence
gives one empty piece. -/
def splitNewline : List Char → List (List Char)
  | [] => [[]]
  | c :: cs =>
    if c = '\n' then [] :: splitNewline cs
    else
      match splitNewline cs with
      | [] => [[c]]
      | l :: ls => (c :: l) :: ls

/-- The call `s.split('\n')`. -/
def jsSplitLines (s : String) : List String :=
  (splitNewline s.data).map String.mk

/-! ## Constants of the module -/

/-- The constant `systemPrompt`. -/
def systemPrompt : String :=
  "\n  You are an expert code reviewer. Analyze the user-provided code and return a JSON object.\n  Your response MUST be a valid JSON object with the following schema:\n  \x7b\n    \"overallAssessment\": \"A brief summary of the code\x27s quality.\",\n    \"readability\": [ \x7b \"suggestion\": \"A specific suggestion for improving readability.\", \"codeSnippet\": \"The relevant line(s) of code.\" \x7d ],\n    \"modularity\": [ \x7b \"suggestion\": \"A specific suggestion for improving modularity.\", \"codeSnippet\": \"The relevant line(s) of code.\" \x7d ],\n    \"bugs\": [ \x7b \"suggestion\": \"A specific potential bug found.\", \"codeSnippet\": \"The relevant line(s) of code.\" \x7d ]\n  \x7d\n  For each suggestion, provide the exact corresponding line(s) of code in the \"codeSnippet\" field. If a suggestion is general and doesn\x27t apply to a specific line, you can leave the \"codeSnippet\" as an empty string. Do not include markdown or backticks inside the JSON string values.\n"

/-- The schema of one list of findings inside `generationConfig`. -/
def findingArraySchema : Json :=
  .obj [("type", .str "ARRAY"),
        ("items", .obj [("type", .str "OBJECT"),
          ("properties", .obj [("suggestion", .obj [("type", .str "STRING")]),
                               ("codeSnippet", .obj [("type", .str "STRING")])]),
          ("required", .arr [.str "suggestion", .str "codeSnippet"])])]

/-- The constant `generationConfig`. -/
def generationConfig : Json :=
  .obj [("responseMimeType", .str "application/json"),
        ("responseSchema", .obj [("type", .str "OBJECT"),
          ("properties", .obj [("overallAssessment", .obj [("type", .str "STRING")]),
                               ("readability", findingArraySchema),
                               ("modularity", findingArraySchema),
                               ("bugs", findingArraySchema)]),
          ("required", .arr [.str "overallAssessment", .str "readability",
                             .str "modularity", .str "bugs"])])]

/-- The `value` fields of the constant `languages`. -/
def languages : List String :=
  ["javascript", "jsx", "typescript", "html", "css", "python", "java",
   "csharp", "cpp", "php", "swift", "go", "ruby", "rust"]

/-- The `id` fields of the constant `reviewTabs`. -/
inductive TabId where
  | overall
  | readability
  | modularity
  | bugs
  deriving DecidableEq, Repr

/-- The constant `reviewTabs`, by id. -/
def reviewTabs : List TabId :=
  [.overall, .readability, .modularity, .bugs]

/-! ## Session state and effects -/

/-- The React state of `App`.  `review` is `Json.null` while no result is
held; `error` is `none` for `null`. -/
structure SessionState where
  code : String
  language : String
  review : Json
  isLoading : Bool
  error : Option String
  activeTab : TabId

/-- The state `App` starts with (the `useState` initial values). -/
def initialState : SessionState :=
  { code := "", language := "javascript", review := .null,
    isLoading := false, error := none, activeTab := .overall }

/-- The object handed to `JSON.stringify` as the request body. -/
structure Payload where
  /-- The field `contents[0].parts[0].text`. -/
  userText : String
  /-- The field `systemInstruction.parts[0].text`. -/
  systemText : String
  generationConfig : Json

/-- The arguments of the `fetch` call. -/
structure Request where
  url : String
  method : String
  headers : List (String × String)
  body : Payload

/-- What a handler does, in program order. -/
inductive Effect where
  | setError (e : Option String)
  | setIsLoading (b : Bool)
  | setReview (r : Json)
  | setActiveTab (t : TabId)
  | setCode (c : String)
  | setLanguage (l : String)
  | fetch (req : Request)

/-- Applying one effect to the state; a request leaves the state alone. -/
def Effect.apply (s : SessionState) : Effect → SessionState
  | .setError e => { s with error := e }
  | .setIsLoading b => { s with isLoading := b }
  | .setReview r => { s with review := r }
  | .setActiveTab t => { s with activeTab := t }
  | .setCode c => { s with code := c }
  | .setLanguage l => { s with language := l }
  | .fetch _ => s

/-- The state after a sequence of effects. -/
def applyEffects (s : SessionState) (effects : List Effect) : SessionState :=
  effects.foldl Effect.apply s

/-- The requests among a sequence of effects. -/
def requestsOf (effects : List Effect) : List Request :=
  effects.filterMap (fun e => match e with | .fetch r => some r | _ => none)

/-- Whether an effect is the call `setIsLoading(true)`. -/
def Effect.setsLoadingTrue : Effect → Bool
  | .setIsLoading true => true
  | _ => false

/-! ## `handleReview` -/

/-- The template literal `userQuery`. -/
def userQuery (language code : String) : String :=
  "Review the following " ++ language ++ " code:\n\n```" ++ language ++ "\n" ++ code ++ "\n```"

/-- The template literal `apiUrl`. -/
def apiUrl (apiKey : String) : String :=
  "https://generativelanguage.googleapis.com/v1beta/models/gemini-2.5-flash-preview-05-20:generateContent?key=" ++ apiKey

/-- The request `handleReview` sends. -/
def reviewRequest (apiKey language code : String) : Request :=
  { url := apiUrl apiKey
    method := "POST"
    headers := [("Content-Type", "application/json")]
    body := { userText := userQuery language code
              systemText := systemPrompt
              generationConfig := generationConfig } }

/-- The part of `handleReview` that runs at the click, up to and including
the `fetch` call.  `apiKey` is the module constant (`""` when the
environment variable is absent). -/
def handleReviewStart (apiKey : String) (s : SessionState) : List Effect :=
  if jsTrim s.code = "" then
    [.setError (some "Please enter or upload some code to review.")]
  else if apiKey = "" then
    [.setError (some "API key is not configured. Please add VITE_GEMINI_API_KEY to your .env file.")]
  else
    [.setIsLoading true, .setError none, .setReview .null, .setActiveTab .overall,
     .fetch (reviewRequest apiKey s.language s.code)]

/-- How the awaited `fetch` call and the awaited `response.json()` turn
out. -/
inductive FetchOutcome where
  /-- The promise of `fetch` rejects with an error of this `message`. -/
  | rejected (message : String)
  /-- A response arrives with this `ok` flag; `response.json()` gives the
  body, or rejects with an error of the given `message`. -/
  | response (ok : Bool) (body : Except String Json)

/-- The expression `candidate?.content?.parts?.[0]?.text` with
`candidate = candidates?.[0]`. -/
def jsonTextOf (candidates : Option Json) : Option Json :=
  let candidate := optChain candidates Json.index0
  optChain (optChain (optChain (optChain candidate (Json.prop "content"))
    (Json.prop "parts")) Json.index0) (Json.prop "text")

/-- The body of the `try` block after the `fetch`: the effects it performs,
or the `message` of the error it throws. -/
def tryBlock (eng : Engine) : FetchOutcome → Except String (List Effect)
  | .rejected m => .error m
  | .response ok body =>
    if !ok then do
      let errorBody ← body
      let error ← readProp eng (some errorBody) "error"
      let message ← readProp eng error "message"
      .error ("API request failed: " ++ templateString message)
    else do
      let result ← body
      let candidates ← readProp eng (some result) "candidates"
      let jsonText := jsonTextOf candidates
      if truthyOpt jsonText then do
        let parsedReview ← eng.jsonParse (templateString jsonText)
        .ok [.setReview parsedReview]
      else
        .ok [.setError (some "Failed to get a valid review from the model.")]

/-- The part of `handleReview` that runs once the request has settled:
`try` body, `catch`, `finally`. -/
def handleReviewFinish (eng : Engine) (o : FetchOutcome) : List Effect :=
  (match tryBlock eng o with
   | .ok effects => effects
   | .error message => [.setError (some ("An error occurred: " ++ message))])
  ++ [.setIsLoading false]

/-- The whole of `handleReview`, the network answering each request with
`net`. -/
def handleReview (apiKey : String) (eng : Engine) (net : Request → FetchOutcome)
    (s : SessionState) : List Effect :=
  let start := handleReviewStart apiKey s
  start ++ (requestsOf start).flatMap (fun req => handleReviewFinish eng (net req))

/-! ## The reviewed document as typed data -/

/-- One entry of a category list, as the response schema types it. -/
structure Finding where
  suggestion : String
  codeSnippet : String
  deriving DecidableEq, Repr

/-- A document matching `generationConfig.responseSchema`. -/
structure ReviewResult where
  overallAssessment : String
  readability : List Finding
  modularity : List Finding
  bugs : List Finding
  deriving DecidableEq, Repr

/-- A string-valued property. -/
def asString : Option Json → Option String
  | some (.str s) => some s
  | _ => none

/-- Reading a JSON value as a `Finding`: an object whose `suggestion` and
`codeSnippet` are strings. -/
def asFinding : Json → Option Finding
  | .obj fields =>
    match asString (fields.lookup "suggestion"), asString (fields.lookup "codeSnippet") with
    | some s, some c => some { suggestion := s, codeSnippet := c }
    | _, _ => none
  | _ => none

/-- Reading every element of an array as a `Finding`. -/
def asFindingList : List Json → Option (List Finding)
  | [] => some []
  | j :: js =>
    match asFinding j, asFindingList js with
    | some f, some fs => some (f :: fs)
    | _, _ => none

/-- An array-of-findings property. -/
def asFindings : Option Json → Option (List Finding)
  | some (.arr items) => asFindingList items
  | _ => none

/-- Reading a parsed document as a `ReviewResult`; `none` when it does not
match the response schema. -/
def asReviewResult : Json → Option ReviewResult
  | .obj fields =>
    match asString (fields.lookup "overallAssessment"), asFindings (fields.lookup "readability"),
          asFindings (fields.lookup "modularity"), asFindings (fields.lookup "bugs") with
    | some o, some r, some m, some b =>
      some { overallAssessment := o, readability := r, modularity := m, bugs := b }
    | _, _, _, _ => none
  | _ => none

/-- The JSON object of a `Finding`. -/
def Finding.toJson (f : Finding) : Json :=
  .obj [("suggestion", .str f.suggestion), ("codeSnippet", .str f.codeSnippet)]

/-- The JSON document of a `ReviewResult`. -/
def ReviewResult.toJson (r : ReviewResult) : Json :=
  .obj [("overallAssessment", .str r.overallAssessment),
        ("readability", .arr (r.readability.map Finding.toJson)),
        ("modularity", .arr (r.modularity.map Finding.toJson)),
        ("bugs", .arr (r.bugs.map Finding.toJson))]

/-! ## `handleDownload` -/

/-- The loop `items.forEach((item, index) => ...)` around a variable the
callback reassigns: `body` maps the variable, the index and the item to the
variable afterwards. -/
def forEachIndexed {α β : Type} (body : β → Nat → α → β) : β → Nat → List α → β
  | acc, _, [] => acc
  | acc, index, item :: rest => forEachIndexed body (body acc index item) (index + 1) rest

/-- The callback of the `forEach` inside `formatCategory`, on `content` and
an item typed by the response schema. -/
def formatItem (content : String) (index : Nat) (item : Finding) : String :=
  let content := content ++ (toString (index + 1) ++ ". Suggestion: " ++ item.suggestion ++ "\n")
  let content :=
    if item.codeSnippet ≠ "" then
      content ++ ("   Code Snippet: " ++ item.codeSnippet ++ "\n")
    else content
  content ++ "\n"

/-- The local function `formatCategory` of `handleDownload`, on a list
typed by the response schema. -/
def formatCategory (title : String) (items : List Finding) : String :=
  let content := toUpperCase title ++ ":\n"
  if items.length = 0 then
    content ++ "No specific issues found.\n\n"
  else
    forEachIndexed formatItem content 0 items

/-- The text `reportContent` that `handleDownload` assembles, for a
document typed by the response schema. -/
def buildReport (review : ReviewResult) (language : String) : String :=
  let reportContent := "Code Review Report\nLanguage: " ++ language ++ "\n"
  let reportContent := reportContent ++ "========================\n\n"
  let reportContent := reportContent ++ ("OVERALL ASSESSMENT:\n" ++ review.overallAssessment ++ "\n\n")
  let reportContent := reportContent ++ formatCategory "Readability" review.readability
  let reportContent := reportContent ++ formatCategory "Modularity & Structure" review.modularity
  let reportContent := reportContent ++ formatCategory "Potential Bugs & Errors" review.bugs
  reportContent ++ "========================\n"

/-- The test `items.length === 0` on a value that is neither `null` nor
`undefined`: arrays and strings have a length, an object has the one it
carries as a property, other values have none. -/
def lengthIsZero : Json → Bool
  | .arr items => items.length == 0
  | .str s => s == ""
  | .obj fields =>
    match fields.lookup "length" with
    | some (.num isZero _) => isZero
    | _ => false
  | _ => false

/-- The callback of the `forEach` inside `formatCategory`, on an item as
it comes from `JSON.parse`: the new `content`, or the `message` of the
error thrown. -/
def formatItemJson (eng : Engine) (content : String) (index : Nat) (item : Json) :
    Except String String := do
  let suggestion ← readProp eng (some item) "suggestion"
  let content := content ++ (toString (index + 1) ++ ". Suggestion: " ++ templateString suggestion ++ "\n")
  let codeSnippet ← readProp eng (some item) "codeSnippet"
  let content :=
    if truthyOpt codeSnippet then
      content ++ ("   Code Snippet: " ++ templateString codeSnippet ++ "\n")
    else content
  .ok (content ++ "\n")

/-- The loop `items.forEach(...)` over the elements of an array, stopping
at the first error thrown. -/
def forEachJson (eng : Engine) : String → Nat → List Json → Except String String
  | content, _, [] => .ok content
  | content, index, item :: rest => do
    let content ← formatItemJson eng content index item
    forEachJson eng content (index + 1) rest

/-- The local function `formatCategory` of `handleDownload`, on `items` as
it is read from the held document (`none` for `undefined`).  Only an array
has a method `forEach`. -/
def formatCategoryJson (eng : Engine) (title : String) (items : Option Json) :
    Except String String :=
  let content := toUpperCase title ++ ":\n"
  match items with
  | none => .error (eng.nullishReadMessage false "length")
  | some .null => .error (eng.nullishReadMessage true "length")
  | some v =>
    if lengthIsZero v then
      .ok (content ++ "No specific issues found.\n\n")
    else
      match v with
      | .arr elements => forEachJson eng content 0 elements
      | _ => .error (eng.notFunctionMessage "items.forEach")

/-- The text `reportContent` that `handleDownload` assembles from the held
document, whatever its shape; `review` is truthy here. -/
def reportContent (eng : Engine) (review : Json) (language : String) : Except String String := do
  let reportContent := "Code Review Report\nLanguage: " ++ language ++ "\n"
  let reportContent := reportContent ++ "========================\n\n"
  let reportContent := reportContent ++
    ("OVERALL ASSESSMENT:\n" ++ templateString (review.prop "overallAssessment") ++ "\n\n")
  let readability ← formatCategoryJson eng "Readability" (review.prop "readability")
  let reportContent := reportContent ++ readability
  let modularity ← formatCategoryJson eng "Modularity & Structure" (review.prop "modularity")
  let reportContent := reportContent ++ modularity
  let bugs ← formatCategoryJson eng "Potential Bugs & Errors" (review.prop "bugs")
  let reportContent := reportContent ++ bugs
  .ok (reportContent ++ "========================\n")

/-- What a click on the download button does. -/
inductive DownloadOutcome where
  /-- The guard `if (!review) return`. -/
  | nothing
  /-- A file of this name, MIME type and text is offered for saving. -/
  | saved (filename mimeType text : String)
  /-- The handler throws an error of this `message` while it assembles the
  text; no file is offered. -/
  | threw (message : String)
  deriving DecidableEq, Repr

/-- The handler `handleDownload`. -/
def handleDownload (eng : Engine) (s : SessionState) : DownloadOutcome :=
  if !s.review.truthy then .nothing
  else
    match reportContent eng s.review s.language with
    | .ok text => .saved "code_review_report.txt" "text/plain;charset=utf-8" text
    | .error message => .threw message

/-! ## Rendering -/

/-- The two kinds of `content` the component `ReviewContent` is given. -/
inductive Content where
  | text (s : String)
  | findings (items : List Finding)

/-- One finding as rendered: the suggestion paragraph and, when present,
the snippet block. -/
structure Block where
  suggestion : String
  snippet : Option String
  deriving DecidableEq, Repr

/-- What `ReviewContent` returns. -/
inductive Rendered where
  /-- The value `null`. -/
  | nothing
  /-- One `<p>` per piece of the split text. -/
  | paragraphs (ps : List String)
  /-- The paragraph "No specific issues found in this category." -/
  | noIssues
  /-- One `<div>` per finding. -/
  | blocks (bs : List Block)
  deriving DecidableEq, Repr

/-- The callback of `content.map` inside `ReviewContent`: the block of one
finding, the snippet rendered only when `item.codeSnippet` is truthy. -/
def renderItem (item : Finding) : Block :=
  { suggestion := item.suggestion
    snippet := if item.codeSnippet ≠ "" then some item.codeSnippet else none }

/-- The component `ReviewContent`. -/
def ReviewContent : Content → Rendered
  | .text content =>
    if content = "" then .nothing
    else .paragraphs (jsSplitLines content)
  | .findings content =>
    if content.length = 0 then .noIssues
    else .blocks (content.map renderItem)

/-- The content area under the tab bar: the one `ReviewContent` whose tab
is active. -/
def tabContent (review : ReviewResult) (activeTab : TabId) : Rendered :=
  match activeTab with
  | .overall => ReviewContent (.text review.overallAssessment)
  | .readability => ReviewContent (.findings review.readability)
  | .modularity => ReviewContent (.findings review.modularity)
  | .bugs => ReviewContent (.findings review.bugs)

/-- The guard `error &&` of the error region. -/
def errorShown (s : SessionState) : Bool :=
  match s.error with
  | none => false
  | some e => e != ""

/-- The guard `review && !isLoading && !error` of the tab bar and the
content area. -/
def resultShown (s : SessionState) : Bool :=
  s.review.truthy && !s.isLoading && !errorShown s

/-- The guard `review &&` of the download button. -/
def downloadOffered (s : SessionState) : Bool :=
  s.review.truthy

/-- The attribute `disabled={isLoading}` of the review button. -/
def submitDisabled (s : SessionState) : Bool :=
  s.isLoading

/-- The paragraphs a rendering shows, in order. -/
def Rendered.paragraphTexts : Rendered → List String
  | .paragraphs ps => ps
  | _ => []

/-- The findings a rendering shows, in order: a block without a snippet
stands for a finding whose snippet is empty. -/
def Rendered.shownFindings : Rendered → List Finding
  | .blocks bs => bs.map (fun b => { suggestion := b.suggestion, codeSnippet := b.snippet.getD "" })
  | _ => []

/-! ## The session as a transition system -/

/-- The component together with the requests that have been sent and have
not settled yet. -/
structure System where
  ui : SessionState
  inFlight : List Request

/-- What can happen to the session. -/
inductive Event where
  /-- The text area changes (`onChange`). -/
  | typeCode (text : String)
  /-- A file read completes (`reader.onload`). -/
  | fileLoaded (text : String)
  /-- The language selector changes. -/
  | selectLanguage (l : String)
  /-- The review button is clicked. -/
  | clickReview
  /-- An outstanding request settles. -/
  | fetchSettled (o : FetchOutcome)
  /-- A tab button is clicked. -/
  | clickTab (t : TabId)
  /-- The download button is clicked. -/
  | clickDownload

/-- One event; `none` when the control that raises it is disabled or not
rendered, or when no request is outstanding. -/
def step (apiKey : String) (eng : Engine) (σ : System) : Event → Option System
  | .typeCode text => some { σ with ui := applyEffects σ.ui [.setCode text] }
  | .fileLoaded text => some { σ with ui := applyEffects σ.ui [.setCode text] }
  | .selectLanguage l =>
    if l ∈ languages then some { σ with ui := applyEffects σ.ui [.setLanguage l] } else none
  | .clickReview =>
    if submitDisabled σ.ui then none
    else
      let effects := handleReviewStart apiKey σ.ui
      some { ui := applyEffects σ.ui effects, inFlight := σ.inFlight ++ requestsOf effects }
  | .fetchSettled o =>
    match σ.inFlight with
    | [] => none
    | _ :: rest =>
      some { ui := applyEffects σ.ui (handleReviewFinish eng o), inFlight := rest }
  | .clickTab t =>
    if resultShown σ.ui then some { σ with ui := applyEffects σ.ui [.setActiveTab t] } else none
  | .clickDownload =>
    if downloadOffered σ.ui then some σ else none

/-- The states the session can be in. -/
inductive Reachable (apiKey : String) (eng : Engine) : System → Prop where
  | init : Reachable apiKey eng { ui := initialState, inFlight := [] }
  | next {σ σ' : System} (e : Event) :
      Reachable apiKey eng σ → step apiKey eng σ e = some σ' → Reachable apiKey eng σ'

/-! ## Derived notions used by the properties -/

/-- The state once `handleReview` has run to its end. -/
def finalState (apiKey : String) (eng : Engine) (net : Request → FetchOutcome)
    (s : SessionState) : SessionState :=
  applyEffects s (handleReview apiKey eng net s)

/-- The nested field `candidates[0].content.parts[0].text` of a response
body, `none` when it is absent. -/
def textField (result : Json) : Option Json :=
  jsonTextOf (result.prop "candidates")

/-- The ways a request that was sent can fail: the transport fails, the
status is not a success, the body is not JSON, the text field is missing
or empty, or the text does not parse. -/
def RequestFails (eng : Engine) : FetchOutcome → Prop
  | .rejected _ => True
  | .response false _ => True
  | .response true (.error _) => True
  | .response true (.ok result) =>
    truthyOpt (textField result) = false ∨
      ∃ m, eng.jsonParse (templateString (textField result)) = .error m

/-- The text of one finding in the report as the specification words it:
the numbered suggestion line, the snippet line when the snippet is not
empty, and a blank line. -/
def findingLines (number : Nat) (f : Finding) : String :=
  toString number ++ ". Suggestion: " ++ f.suggestion ++ "\n" ++
    (if f.codeSnippet ≠ "" then "   Code Snippet: " ++ f.codeSnippet ++ "\n" else "") ++ "\n"

/-- The findings of a list, numbered from `first` in the order of the
list, concatenated. -/
def numberedFindings (first : Nat) (items : List Finding) : String :=
  String.join ((items.enumFrom first).map (fun p => findingLines p.1 p.2))

/-- Pieces joined by line feeds. -/
def joinNewline : List (List Char) → List Char
  | [] => []
  | [l] => l
  | l :: m :: rest => l ++ '\n' :: joinNewline (m :: rest)

/-- The lines of a text that ends with a line break: the pieces between
line breaks, without the empty piece after the last one. -/
def reportLines (text : String) : List String :=
  (jsSplitLines text).dropLast

/-- The part of the report before the three category sections: the title,
the language line, the rule and the overall assessment. -/
def reportHeader (review : ReviewResult) (language : String) : String :=
  "Code Review Report\nLanguage: " ++ language ++ "\n" ++ "========================\n\n" ++
    ("OVERALL ASSESSMENT:\n" ++ review.overallAssessment ++ "\n\n")

/-- The three titles `handleDownload` passes to `formatCategory`. -/
def categoryTitles : List String :=
  ["Readability", "Modularity & Structure", "Potential Bugs & Errors"]

/-! ## Concrete data for the examples -/

/-- The document of the specification scenario. -/
def scenarioResult : ReviewResult :=
  { overallAssessment := "OK", readability := [], modularity := [],
    bugs := [{ suggestion := "no docstring", codeSnippet := "def f():" }] }

/-- The text of the scenario document. -/
def scenarioText : String :=
  "\x7b\"overallAssessment\":\"OK\",\"readability\":[],\"modularity\":[],\"bugs\":[\x7b\"suggestion\":\"no docstring\",\"codeSnippet\":\"def f():\"\x7d]\x7d"

/-- An engine for evaluating the handlers on concrete inputs: its
`JSON.parse` is given on the scenario text and reports a syntax error on
the other text used below; its type errors are worded as V8 words them. -/
def scenarioEngine : Engine :=
  { jsonParse := fun t =>
      if t = scenarioText then .ok scenarioResult.toJson
      else .error "Unexpected end of JSON input"
    nullishReadMessage := fun isNull key =>
      "Cannot read properties of " ++ (if isNull then "null" else "undefined") ++
        " (reading \x27" ++ key ++ "\x27)"
    notFunctionMessage := fun callee => callee ++ " is not a function" }

/-- A response body carrying `text` at `candidates[0].content.parts[0].text`. -/
def bodyWithText (text : Json) : Json :=
  .obj [("candidates", .arr [.obj [("content", .obj [("parts", .arr [.obj [("text", text)]])])]])]

/-- The error body of the specification scenario. -/
def quotaBody : Json :=
  .obj [("error", .obj [("message", .str "quota exceeded")])]

/-- The session of the specification scenario before the click. -/
def scenarioState : SessionState :=
  { initialState with code := "def f():\n  pass", language := "python" }

/-- A session that holds an earlier result and whose text area is empty. -/
def staleState : SessionState :=
  { initialState with review := scenarioResult.toJson, activeTab := .bugs }

/-- The state a session is in right after a valid click: the request of
the scenario text is outstanding. -/
def loadingSystem : System :=
  { ui := { code := "def f():\n  pass", language := "javascript", review := .null,
            isLoading := true, error := none, activeTab := .overall }
    inFlight := [reviewRequest "key" "javascript" "def f():\n  pass"] }

/-- What holds of every state the session can be in: at most one request
is outstanding, one is outstanding exactly while the loading flag is on,
and while it is on there is no result, no error and the active tab is
"overall". -/
def SessionInvariant (σ : System) : Prop :=
  σ.inFlight.length ≤ 1 ∧
  (σ.ui.isLoading = true ↔ σ.inFlight ≠ []) ∧
  (σ.ui.isLoading = true →
    σ.ui.review = .null ∧ σ.ui.error = none ∧ σ.ui.activeTab = .overall)

end CodeReviewAssistant

namespace CodeReviewAssistant

/-! ## Basic facts about effects -/

theorem requestsOf_append (a b : List Effect) :
    requestsOf (a ++ b) = requestsOf a ++ requestsOf b := by
  simp [requestsOf, List.filterMap_append]

theorem applyEffects_append (s : SessionState) (a b : List Effect) :
    applyEffects s (a ++ b) = applyEffects (applyEffects s a) b := by
  simp [applyEffects, List.foldl_append]

/-- Member access on a value that is not `null` does not throw. -/
theorem readProp_some (eng : Engine) (v : Json) (k : String) (hv : v ≠ .null) :
    readProp eng (some v) k = .ok (v.prop k) := by
  cases v <;> simp_all [readProp]

/-- A value with a property is not `null`. -/
theorem ne_null_of_prop {v x : Json} {k : String} (h : v.prop k = some x) : v ≠ .null := by
  intro hv
  subst hv
  simp [Json.prop] at h

/-- The `try` block on a successful response whose body is not `null`. -/
theorem tryBlock_ok (eng : Engine) (result : Json) (hv : result ≠ .null) :
    tryBlock eng (.response true (.ok result)) =
      if truthyOpt (textField result) then
        (match eng.jsonParse (templateString (textField result)) with
         | .ok parsedReview => .ok [.setReview parsedReview]
         | .error m => .error m)
      else .ok [.setError (some "Failed to get a valid review from the model.")] := by
  simp only [tryBlock, textField, Bool.not_true, Bool.false_eq_true, if_false, bind, Except.bind,
    readProp_some eng result "candidates" hv]
  split
  · cases eng.jsonParse (templateString (jsonTextOf (Json.prop "candidates" result))) <;> rfl
  · rfl

/-- The `try` block on a failure response whose body carries
`error.message`. -/
theorem tryBlock_notOk (eng : Engine) (errorBody error : Json) (message : Option Json)
    (h1 : errorBody.prop "error" = some error) (h2 : error ≠ .null)
    (h3 : error.prop "message" = message) :
    tryBlock eng (.response false (.ok errorBody)) =
      .error ("API request failed: " ++ templateString message) := by
  simp [tryBlock, bind, Except.bind, readProp_some eng errorBody "error" (ne_null_of_prop h1), h1,
    readProp_some eng error "message" h2, h3]

/-- String conversion leaves a string as it is. -/
theorem templateString_str (m : String) : templateString (some (.str m)) = m := by
  simp [templateString, Json.toJsString]

/-- A failure response always makes the `try` block throw. -/
theorem tryBlock_notOk_throws (eng : Engine) (body : Except String Json) :
    ∃ m, tryBlock eng (.response false body) = .error m := by
  cases body with
  | error e => exact ⟨e, rfl⟩
  | ok errorBody =>
    cases h1 : readProp eng (some errorBody) "error" with
    | error m => exact ⟨m, by simp [tryBlock, bind, Except.bind, h1]⟩
    | ok error =>
      cases h2 : readProp eng error "message" with
      | error m => exact ⟨m, by simp [tryBlock, bind, Except.bind, h1, h2]⟩
      | ok message =>
        exact ⟨"API request failed: " ++ templateString message,
          by simp [tryBlock, bind, Except.bind, h1, h2]⟩

/-- The `try` block on a successful response whose body is `null`. -/
theorem tryBlock_null (eng : Engine) :
    tryBlock eng (.response true (.ok .null)) = .error (eng.nullishReadMessage true "candidates") := by
  simp [tryBlock, bind, Except.bind, readProp]

/-- The three ways the `try` block can end: it throws, it stores a parsed
document, or it sets the generic error. -/
theorem tryBlock_cases (eng : Engine) (o : FetchOutcome) :
    (∃ m, tryBlock eng o = .error m) ∨
    (∃ doc, tryBlock eng o = .ok [.setReview doc]) ∨
    tryBlock eng o = .ok [.setError (some "Failed to get a valid review from the model.")] := by
  cases o with
  | rejected m => exact Or.inl ⟨m, rfl⟩
  | response ok body =>
    cases ok with
    | false => exact Or.inl (tryBlock_notOk_throws eng body)
    | true =>
      cases body with
      | error e => exact Or.inl ⟨e, rfl⟩
      | ok result =>
        by_cases hv : result = .null
        · subst hv
          exact Or.inl ⟨_, tryBlock_null eng⟩
        · rw [tryBlock_ok eng result hv]
          by_cases ht : truthyOpt (textField result) = true
          · rw [if_pos ht]
            cases eng.jsonParse (templateString (textField result)) with
            | error m => exact Or.inl ⟨m, rfl⟩
            | ok doc => exact Or.inr (Or.inl ⟨doc, rfl⟩)
          · rw [if_neg ht]
            exact Or.inr (Or.inr rfl)

/-- The continuation after the request sends nothing further. -/
theorem requestsOf_handleReviewFinish (eng : Engine) (o : FetchOutcome) :
    requestsOf (handleReviewFinish eng o) = [] := by
  unfold handleReviewFinish
  rcases tryBlock_cases eng o with ⟨m, h⟩ | ⟨doc, h⟩ | h <;> rw [h] <;> rfl

/-- The continuation turns the loading flag off and leaves the active tab,
the text and the language alone. -/
theorem applyEffects_handleReviewFinish (eng : Engine) (o : FetchOutcome) (s : SessionState) :
    (applyEffects s (handleReviewFinish eng o)).isLoading = false ∧
    (applyEffects s (handleReviewFinish eng o)).activeTab = s.activeTab ∧
    (applyEffects s (handleReviewFinish eng o)).code = s.code ∧
    (applyEffects s (handleReviewFinish eng o)).language = s.language := by
  unfold handleReviewFinish
  rcases tryBlock_cases eng o with ⟨m, h⟩ | ⟨doc, h⟩ | h <;> rw [h] <;> exact ⟨rfl, rfl, rfl, rfl⟩

/-- A failing request makes the `try` block throw or set the generic
error. -/
theorem tryBlock_of_fails (eng : Engine) (o : FetchOutcome) (h : RequestFails eng o) :
    (∃ m, tryBlock eng o = .error m) ∨
    tryBlock eng o = .ok [.setError (some "Failed to get a valid review from the model.")] := by
  rcases tryBlock_cases eng o with hm | ⟨doc, hd⟩ | hg
  · exact Or.inl hm
  · exfalso
    cases o with
    | rejected m => cases hd
    | response ok body =>
      cases ok with
      | false => obtain ⟨m, hm⟩ := tryBlock_notOk_throws eng body; rw [hm] at hd; cases hd
      | true =>
        cases body with
        | error e => cases hd
        | ok result =>
          by_cases hv : result = .null
          · subst hv; rw [tryBlock_null] at hd; cases hd
          · rw [tryBlock_ok eng result hv] at hd
            rcases h with hf | ⟨m, hm⟩
            · rw [hf] at hd
              simp at hd
            · rw [hm] at hd
              split at hd <;> simp at hd
  · exact Or.inr hg

/-- A request that does not fail stores the parsed document. -/
theorem tryBlock_of_not_fails (eng : Engine) (o : FetchOutcome) (h : ¬ RequestFails eng o) :
    ∃ doc, tryBlock eng o = .ok [.setReview doc] := by
  cases o with
  | rejected m => exact absurd trivial h
  | response ok body =>
    cases ok with
    | false => exact absurd trivial h
    | true =>
      cases body with
      | error e => exact absurd trivial h
      | ok result =>
        simp only [RequestFails, not_or, not_exists] at h
        obtain ⟨ht, hp⟩ := h
        have hv : result ≠ .null := by
          intro hv
          subst hv
          exact ht rfl
        rw [tryBlock_ok eng result hv]
        have ht' : truthyOpt (textField result) = true := by simpa using ht
        rw [if_pos ht']
        cases hq : eng.jsonParse (templateString (textField result)) with
        | error m => exact absurd hq (hp m)
        | ok doc => exact ⟨doc, rfl⟩

/-- The effects of `handleReview` when validation passes. -/
theorem handleReview_valid (apiKey : String) (eng : Engine) (net : Request → FetchOutcome)
    (s : SessionState) (hcode : jsTrim s.code ≠ "") (hkey : apiKey ≠ "") :
    handleReview apiKey eng net s =
      [.setIsLoading true, .setError none, .setReview .null, .setActiveTab .overall,
       .fetch (reviewRequest apiKey s.language s.code)] ++
      handleReviewFinish eng (net (reviewRequest apiKey s.language s.code)) := by
  simp [handleReview, handleReviewStart, hcode, hkey, requestsOf]

/-- The effects of `handleReview` when validation fails. -/
theorem handleReview_invalid (apiKey : String) (eng : Engine) (net : Request → FetchOutcome)
    (s : SessionState) (h : jsTrim s.code = "" ∨ apiKey = "") :
    handleReview apiKey eng net s =
      [.setError (some (if jsTrim s.code = "" then "Please enter or upload some code to review."
        else "API key is not configured. Please add VITE_GEMINI_API_KEY to your .env file."))] := by
  by_cases hc : jsTrim s.code = ""
  · simp [handleReview, handleReviewStart, hc, requestsOf]
  · have hk : apiKey = "" := by
      cases h with
      | inl h => exact absurd h hc
      | inr h => exact h
    simp [handleReview, handleReviewStart, hc, hk, requestsOf]

/-! ## Local validation (C1) -/

/-- C1: in every session state, when the source text is empty after
trimming or the credential is absent, `handleReview` performs a single
effect, the local error message (the one for empty text when the text is
empty, otherwise the one for the missing credential); it sends no request,
never calls `setIsLoading(true)`, and leaves the loading flag as it was. -/
theorem handleReview_local_validation (apiKey : String) (eng : Engine)
    (net : Request → FetchOutcome) (s : SessionState)
    (h : jsTrim s.code = "" ∨ apiKey = "") :
    requestsOf (handleReview apiKey eng net s) = [] ∧
    (∀ e ∈ handleReview apiKey eng net s, e.setsLoadingTrue = false) ∧
    (jsTrim s.code = "" →
      handleReview apiKey eng net s =
        [.setError (some "Please enter or upload some code to review.")]) ∧
    (jsTrim s.code ≠ "" →
      handleReview apiKey eng net s =
        [.setError (some
          "API key is not configured. Please add VITE_GEMINI_API_KEY to your .env file.")]) ∧
    (finalState apiKey eng net s).error =
      some (if jsTrim s.code = "" then "Please enter or upload some code to review."
        else "API key is not configured. Please add VITE_GEMINI_API_KEY to your .env file.") ∧
    (finalState apiKey eng net s).isLoading = s.isLoading := by
  have hr := handleReview_invalid apiKey eng net s h
  refine ⟨?_, ?_, ?_, ?_, ?_, ?_⟩
  · rw [hr]; rfl
  · intro e he
    rw [hr] at he
    simp at he
    subst he
    rfl
  · intro hc
    rw [hr, if_pos hc]
  · intro hc
    rw [hr, if_neg hc]
  · simp [finalState, hr, applyEffects, Effect.apply]
  · simp [finalState, hr, applyEffects, Effect.apply]

/-- C1 at a whitespace-only text with no credential configured. -/
theorem handleReview_local_validation_witness :
    (jsTrim " \n\t " = "" ∨ "" = "") ∧
    requestsOf (handleReview "" scenarioEngine (fun _ => .rejected "Failed to fetch")
      { initialState with code := " \n\t " }) = [] ∧
    (finalState "" scenarioEngine (fun _ => .rejected "Failed to fetch")
      { initialState with code := " \n\t " }).error =
        some "Please enter or upload some code to review." :=
  ⟨Or.inl (by decide),
   (handleReview_local_validation "" scenarioEngine (fun _ => .rejected "Failed to fetch")
      { initialState with code := " \n\t " } (Or.inl (by decide))).1,
   by
    have h := (handleReview_local_validation "" scenarioEngine
      (fun _ => .rejected "Failed to fetch")
      { initialState with code := " \n\t " } (Or.inl (by decide))).2.2.2.2.1
    rw [h]
    decide⟩

/-! ## The state after a request that was sent -/

/-- The state when validation passes, in terms of the continuation. -/
theorem finalState_valid (apiKey : String) (eng : Engine) (net : Request → FetchOutcome)
    (s : SessionState) (hcode : jsTrim s.code ≠ "") (hkey : apiKey ≠ "") :
    finalState apiKey eng net s =
      applyEffects { s with isLoading := true, error := none, review := .null, activeTab := .overall }
        (handleReviewFinish eng (net (reviewRequest apiKey s.language s.code))) := by
  rw [finalState, handleReview_valid apiKey eng net s hcode hkey, applyEffects_append]
  rfl

/-- The state after a request whose `try` block throws. -/
theorem finalState_of_throw (apiKey : String) (eng : Engine) (net : Request → FetchOutcome)
    (s : SessionState) (hcode : jsTrim s.code ≠ "") (hkey : apiKey ≠ "") (m : String)
    (h : tryBlock eng (net (reviewRequest apiKey s.language s.code)) = .error m) :
    finalState apiKey eng net s =
      { s with isLoading := false, error := some ("An error occurred: " ++ m), review := .null,
               activeTab := .overall } := by
  rw [finalState_valid apiKey eng net s hcode hkey]
  simp [handleReviewFinish, h, applyEffects, Effect.apply]

/-- The state after a request whose `try` block ends normally. -/
theorem finalState_of_effects (apiKey : String) (eng : Engine) (net : Request → FetchOutcome)
    (s : SessionState) (hcode : jsTrim s.code ≠ "") (hkey : apiKey ≠ "") (effects : List Effect)
    (h : tryBlock eng (net (reviewRequest apiKey s.language s.code)) = .ok effects) :
    finalState apiKey eng net s =
      applyEffects
        (applyEffects { s with isLoading := true, error := none, review := .null,
                               activeTab := .overall } effects)
        [.setIsLoading false] := by
  rw [finalState_valid apiKey eng net s hcode hkey]
  simp [handleReviewFinish, h, applyEffects_append]

/-! ## Failure status (C2) -/

/-- C2, as the code has it: after a submission that passes validation and
receives a non-success response whose body carries `error.message = m`, the
error shown is "An error occurred: API request failed: " followed by `m`
(the `catch` block prefixes every thrown message), no result is held and
the loading flag is off. -/
theorem handleReview_http_failure (apiKey : String) (eng : Engine)
    (net : Request → FetchOutcome) (s : SessionState) (errorBody error : Json) (m : String)
    (hcode : jsTrim s.code ≠ "") (hkey : apiKey ≠ "")
    (hnet : net (reviewRequest apiKey s.language s.code) = .response false (.ok errorBody))
    (h1 : errorBody.prop "error" = some error)
    (h2 : error.prop "message" = some (.str m)) :
    (finalState apiKey eng net s).error = some ("An error occurred: API request failed: " ++ m) ∧
    (finalState apiKey eng net s).review = .null ∧
    (finalState apiKey eng net s).isLoading = false := by
  have ht : tryBlock eng (net (reviewRequest apiKey s.language s.code)) =
      .error ("API request failed: " ++ m) := by
    rw [hnet, tryBlock_notOk eng errorBody error (some (.str m)) h1 (ne_null_of_prop h2) h2,
      templateString_str]
  rw [finalState_of_throw apiKey eng net s hcode hkey _ ht]
  exact ⟨rfl, rfl, rfl⟩

/-- C2 at the scenario of the specification. -/
theorem handleReview_http_failure_witness :
    jsTrim scenarioState.code ≠ "" ∧ "key" ≠ "" ∧
    (finalState "key" scenarioEngine (fun _ => .response false (.ok quotaBody))
      scenarioState).error = some ("An error occurred: API request failed: " ++ "quota exceeded") ∧
    (finalState "key" scenarioEngine (fun _ => .response false (.ok quotaBody))
      scenarioState).review = .null :=
  ⟨by decide, by decide,
   (handleReview_http_failure "key" scenarioEngine (fun _ => .response false (.ok quotaBody))
      scenarioState quotaBody (.obj [("message", .str "quota exceeded")]) "quota exceeded"
      (by decide) (by decide) rfl rfl rfl).1,
   (handleReview_http_failure "key" scenarioEngine (fun _ => .response false (.ok quotaBody))
      scenarioState quotaBody (.obj [("message", .str "quota exceeded")]) "quota exceeded"
      (by decide) (by decide) rfl rfl rfl).2.1⟩

/-- C2 as stated fails: with the body of the scenario the error shown is
not "API request failed: quota exceeded" but that text behind the prefix
of the `catch` block. -/
theorem handleReview_quota_counterexample :
    (finalState "key" scenarioEngine (fun _ => .response false (.ok quotaBody))
      scenarioState).error = some "An error occurred: API request failed: quota exceeded" ∧
    (finalState "key" scenarioEngine (fun _ => .response false (.ok quotaBody))
      scenarioState).error ≠ some "API request failed: quota exceeded" := by
  have ht : tryBlock scenarioEngine ((fun _ => FetchOutcome.response false (.ok quotaBody))
      (reviewRequest "key" scenarioState.language scenarioState.code)) =
      .error ("API request failed: " ++ "quota exceeded") := by
    have := tryBlock_notOk scenarioEngine quotaBody (.obj [("message", .str "quota exceeded")])
      (some (.str "quota exceeded")) rfl (by simp) rfl
    rw [templateString_str] at this
    exact this
  rw [finalState_of_throw "key" scenarioEngine _ scenarioState (by decide) (by decide) _ ht]
  exact ⟨by decide, by decide⟩

/-! ## Missing text field (C3) -/

/-- C3, as the code has it: for every successful response whose body is a
JSON value other than `null` in which `candidates[0].content.parts[0].text`
is absent, `handleReview` sets the generic error, holds no result and ends
with the loading flag off; the continuation consists of these two setter
calls alone and does not depend on `JSON.parse`. -/
theorem handleReview_missing_text (apiKey : String) (eng : Engine)
    (net : Request → FetchOutcome) (s : SessionState) (result : Json)
    (hcode : jsTrim s.code ≠ "") (hkey : apiKey ≠ "")
    (hnet : net (reviewRequest apiKey s.language s.code) = .response true (.ok result))
    (hbody : result ≠ .null) (habsent : textField result = none) :
    (finalState apiKey eng net s).error = some "Failed to get a valid review from the model." ∧
    (finalState apiKey eng net s).review = .null ∧
    (finalState apiKey eng net s).isLoading = false ∧
    handleReviewFinish eng (.response true (.ok result)) =
      [.setError (some "Failed to get a valid review from the model."), .setIsLoading false] ∧
    (∀ eng' : Engine, handleReview apiKey eng' net s = handleReview apiKey eng net s) := by
  have ht : ∀ e : Engine, tryBlock e (.response true (.ok result)) =
      .ok [.setError (some "Failed to get a valid review from the model.")] := by
    intro e
    rw [tryBlock_ok e result hbody, habsent]
    rfl
  have hfin : ∀ e : Engine, handleReviewFinish e (.response true (.ok result)) =
      [.setError (some "Failed to get a valid review from the model."), .setIsLoading false] := by
    intro e
    simp [handleReviewFinish, ht e]
  refine ⟨?_, ?_, ?_, hfin eng, ?_⟩
  · rw [finalState_of_effects apiKey eng net s hcode hkey _ (hnet ▸ ht eng)]; rfl
  · rw [finalState_of_effects apiKey eng net s hcode hkey _ (hnet ▸ ht eng)]; rfl
  · rw [finalState_of_effects apiKey eng net s hcode hkey _ (hnet ▸ ht eng)]; rfl
  · intro eng'
    rw [handleReview_valid apiKey eng' net s hcode hkey, handleReview_valid apiKey eng net s hcode hkey,
      hnet, hfin eng', hfin eng]

/-- C3 at a successful response whose body is an empty object. -/
theorem handleReview_missing_text_witness :
    jsTrim scenarioState.code ≠ "" ∧ "key" ≠ "" ∧ Json.obj [] ≠ .null ∧
    textField (.obj []) = none ∧
    (finalState "key" scenarioEngine (fun _ => .response true (.ok (.obj [])))
      scenarioState).error = some "Failed to get a valid review from the model." ∧
    (finalState "key" scenarioEngine (fun _ => .response true (.ok (.obj [])))
      scenarioState).review = .null :=
  ⟨by decide, by decide, by simp, rfl,
   (handleReview_missing_text "key" scenarioEngine (fun _ => .response true (.ok (.obj [])))
      scenarioState (.obj []) (by decide) (by decide) rfl (by simp) rfl).1,
   (handleReview_missing_text "key" scenarioEngine (fun _ => .response true (.ok (.obj [])))
      scenarioState (.obj []) (by decide) (by decide) rfl (by simp) rfl).2.1⟩

/-- C3 as stated fails: a successful response whose body is the JSON value
`null` has no text field, yet the error shown is not the generic one: the
access `result.candidates` throws and the `catch` block reports that. -/
theorem handleReview_null_body_counterexample :
    textField .null = none ∧
    (finalState "key" scenarioEngine (fun _ => .response true (.ok .null))
      scenarioState).error =
        some "An error occurred: Cannot read properties of null (reading \x27candidates\x27)" ∧
    (finalState "key" scenarioEngine (fun _ => .response true (.ok .null))
      scenarioState).error ≠ some "Failed to get a valid review from the model." := by
  have ht : tryBlock scenarioEngine ((fun _ => FetchOutcome.response true (.ok .null))
      (reviewRequest "key" scenarioState.language scenarioState.code)) =
      .error "Cannot read properties of null (reading \x27candidates\x27)" := by
    simp [tryBlock, bind, Except.bind, readProp, scenarioEngine]
  rw [finalState_of_throw "key" scenarioEngine _ scenarioState (by decide) (by decide) _ ht]
  exact ⟨rfl, by decide, by decide⟩

/-! ## The request (C4) -/

/-- C4, as the code has it: for every source text that is non-empty after
trimming and a present credential, `handleReview` sends exactly one
request, and the user message in its body is the template around the
language tag and the source text, the text taken as it is. -/
theorem handleReview_one_request (apiKey : String) (eng : Engine)
    (net : Request → FetchOutcome) (s : SessionState)
    (hcode : jsTrim s.code ≠ "") (hkey : apiKey ≠ "") :
    requestsOf (handleReview apiKey eng net s) = [reviewRequest apiKey s.language s.code] ∧
    (reviewRequest apiKey s.language s.code).body.userText =
      "Review the following " ++ s.language ++ " code:\n\n```" ++ s.language ++ "\n" ++
        s.code ++ "\n```" := by
  constructor
  · rw [handleReview_valid apiKey eng net s hcode hkey, requestsOf_append,
      requestsOf_handleReviewFinish]
    rfl
  · rfl

/-- C4 at the scenario of the specification. -/
theorem handleReview_one_request_witness :
    jsTrim scenarioState.code ≠ "" ∧ "key" ≠ "" ∧
    (requestsOf (handleReview "key" scenarioEngine (fun _ => .rejected "Failed to fetch")
      scenarioState)).length = 1 ∧
    (reviewRequest "key" scenarioState.language scenarioState.code).body.userText =
      "Review the following python code:\n\n```python\ndef f():\n  pass\n```" :=
  ⟨by decide, by decide,
   by rw [(handleReview_one_request "key" scenarioEngine (fun _ => .rejected "Failed to fetch")
      scenarioState (by decide) (by decide)).1]; rfl,
   by rw [(handleReview_one_request "key" scenarioEngine (fun _ => .rejected "Failed to fetch")
      scenarioState (by decide) (by decide)).2]; decide⟩

/-- C4 as stated fails: a source text of one blank is not empty, the
credential is present, and no request is sent. -/
theorem handleReview_blank_counterexample :
    (" " : String) ≠ "" ∧ ("key" : String) ≠ "" ∧
    requestsOf (handleReview "key" scenarioEngine (fun _ => .rejected "Failed to fetch")
      { initialState with code := " " }) = [] := by
  refine ⟨by decide, by decide, ?_⟩
  rw [handleReview_invalid "key" scenarioEngine _ _ (Or.inl (by decide))]
  rfl

/-! ## Splitting and joining lines -/

theorem splitNewline_ne_nil (cs : List Char) : splitNewline cs ≠ [] := by
  cases cs with
  | nil => simp [splitNewline]
  | cons c cs =>
    unfold splitNewline
    split
    · simp
    · split <;> simp

theorem joinNewline_splitNewline (cs : List Char) : joinNewline (splitNewline cs) = cs := by
  induction cs with
  | nil => rfl
  | cons c cs ih =>
    unfold splitNewline
    split
    · rename_i h
      subst h
      cases hs : splitNewline cs with
      | nil => exact absurd hs (splitNewline_ne_nil cs)
      | cons l ls => rw [hs] at ih; simp [joinNewline, ih]
    · cases hs : splitNewline cs with
      | nil => exact absurd hs (splitNewline_ne_nil cs)
      | cons l ls =>
        rw [hs] at ih
        cases ls with
        | nil => simp [joinNewline] at ih ⊢; exact ih
        | cons m rest => simp [joinNewline] at ih ⊢; exact ih

theorem intercalate_go_data (acc : String) (ls : List (List Char)) :
    (String.intercalate.go acc "\n" (ls.map String.mk)).data
      = acc.data ++ (ls.map (fun l => '\n' :: l)).flatten := by
  induction ls generalizing acc with
  | nil => simp [String.intercalate.go]
  | cons l ls ih =>
    simp only [List.map_cons, String.intercalate.go, ih, String.data_append, List.flatten_cons]
    simp

theorem joinNewline_cons (l : List Char) (ls : List (List Char)) :
    joinNewline (l :: ls) = l ++ (ls.map (fun l => '\n' :: l)).flatten := by
  induction ls generalizing l with
  | nil => simp [joinNewline]
  | cons m rest ih => simp [joinNewline, ih]

/-- Splitting a text at its line breaks and joining the pieces with line
breaks gives the text back. -/
theorem intercalate_jsSplitLines (s : String) :
    String.intercalate "\n" (jsSplitLines s) = s := by
  apply String.ext
  unfold jsSplitLines
  cases hs : splitNewline s.data with
  | nil => exact absurd hs (splitNewline_ne_nil _)
  | cons l ls =>
    have h := joinNewline_splitNewline s.data
    rw [hs, joinNewline_cons] at h
    simp only [List.map_cons, String.intercalate, intercalate_go_data]
    exact h

/-- The lines of two texts joined by a line break are the lines of the one
followed by the lines of the other. -/
theorem splitNewline_append (a b : List Char) :
    splitNewline (a ++ '\n' :: b) = splitNewline a ++ splitNewline b := by
  induction a with
  | nil => simp [splitNewline]
  | cons c cs ih =>
    simp only [List.cons_append]
    by_cases hc : c = '\n'
    · simp [splitNewline, hc, ih]
    · rw [splitNewline, if_neg hc, splitNewline, if_neg hc, ih]
      cases hs : splitNewline cs with
      | nil => exact absurd hs (splitNewline_ne_nil cs)
      | cons l ls => simp

/-! ## Typed documents -/

theorem asFinding_toJson (f : Finding) : asFinding f.toJson = some f := by
  simp [asFinding, Finding.toJson, List.lookup, asString]

theorem asFindingList_toJson (fs : List Finding) :
    asFindingList (fs.map Finding.toJson) = some fs := by
  induction fs with
  | nil => rfl
  | cons f rest ih => simp [asFindingList, asFinding_toJson, ih]

/-- Every `ReviewResult` is read back from its JSON document. -/
theorem asReviewResult_toJson (r : ReviewResult) : asReviewResult r.toJson = some r := by
  simp [asReviewResult, ReviewResult.toJson, List.lookup, asString, asFindings,
    asFindingList_toJson]

/-- A document matching the schema is truthy. -/
theorem truthy_of_asReviewResult {doc : Json} {r : ReviewResult}
    (h : asReviewResult doc = some r) : doc.truthy = true := by
  cases doc <;> simp [asReviewResult] at h
  rfl

/-- The blocks of a list of findings show those findings. -/
theorem shownFindings_findings (items : List Finding) :
    (ReviewContent (.findings items)).shownFindings = items := by
  cases items with
  | nil => rfl
  | cons f rest =>
    simp only [ReviewContent, List.length_cons, Nat.succ_ne_zero, if_false, Rendered.shownFindings,
      List.map_map]
    have hid : ∀ x : Finding,
        ((fun b : Block => ({ suggestion := b.suggestion, codeSnippet := b.snippet.getD "" } : Finding))
          ∘ renderItem) x = x := by
      intro x
      cases x with
      | mk sg cs =>
        by_cases hc : cs = "" <;> simp [renderItem, hc]
    rw [List.map_congr_left (fun x _ => hid x)]
    simp

/-- The paragraphs of a text, joined by line breaks, are the text. -/
theorem paragraphTexts_text (content : String) :
    String.intercalate "\n" (ReviewContent (.text content)).paragraphTexts = content := by
  by_cases h : content = ""
  · subst h; rfl
  · simp only [ReviewContent, if_neg h, Rendered.paragraphTexts]
    exact intercalate_jsSplitLines content

/-! ## A successful review on display (C5) -/

/-- C5: after a successful response whose embedded text is valid JSON
matching the schema, the state holds the parsed document, the result area
is shown with the "overall" tab active, the paragraphs of the "overall" tab
joined by line breaks are the `overallAssessment` field, and each of the
three list tabs shows the received findings, one block per finding, in the
received order. -/
theorem handleReview_success_display (apiKey : String) (eng : Engine)
    (net : Request → FetchOutcome) (s : SessionState) (result doc : Json) (t : String)
    (r : ReviewResult)
    (hcode : jsTrim s.code ≠ "") (hkey : apiKey ≠ "")
    (hnet : net (reviewRequest apiKey s.language s.code) = .response true (.ok result))
    (htext : textField result = some (.str t)) (ht : t ≠ "")
    (hparse : eng.jsonParse t = .ok doc) (hschema : asReviewResult doc = some r) :
    (finalState apiKey eng net s).review = doc ∧
    resultShown (finalState apiKey eng net s) = true ∧
    (finalState apiKey eng net s).activeTab = .overall ∧
    String.intercalate "\n" (tabContent r .overall).paragraphTexts = r.overallAssessment ∧
    (tabContent r .readability).shownFindings = r.readability ∧
    (tabContent r .modularity).shownFindings = r.modularity ∧
    (tabContent r .bugs).shownFindings = r.bugs ∧
    (r.readability ≠ [] → tabContent r .readability = .blocks (r.readability.map renderItem)) ∧
    (r.modularity ≠ [] → tabContent r .modularity = .blocks (r.modularity.map renderItem)) ∧
    (r.bugs ≠ [] → tabContent r .bugs = .blocks (r.bugs.map renderItem)) := by
  have hbody : result ≠ .null := by
    intro h
    subst h
    simp [textField, Json.prop, jsonTextOf, optChain] at htext
  have htry : tryBlock eng (net (reviewRequest apiKey s.language s.code)) =
      .ok [.setReview doc] := by
    rw [hnet, tryBlock_ok eng result hbody, htext, templateString_str, hparse]
    simp [truthyOpt, Json.truthy, ht]
  have hfinal := finalState_of_effects apiKey eng net s hcode hkey _ htry
  have hblocks : ∀ items : List Finding, items ≠ [] →
      ReviewContent (.findings items) = .blocks (items.map renderItem) := by
    intro items hne
    cases items with
    | nil => exact absurd rfl hne
    | cons f rest => simp [ReviewContent]
  refine ⟨?_, ?_, ?_, paragraphTexts_text _, shownFindings_findings _, shownFindings_findings _,
    shownFindings_findings _, hblocks _, hblocks _, hblocks _⟩
  · rw [hfinal]; rfl
  · rw [hfinal]
    simp [resultShown, applyEffects, Effect.apply, errorShown, truthy_of_asReviewResult hschema]
  · rw [hfinal]; rfl

/-- C5 at the scenario of the specification. -/
theorem handleReview_success_display_witness :
    jsTrim scenarioState.code ≠ "" ∧ "key" ≠ "" ∧
    textField (bodyWithText (.str scenarioText)) = some (.str scenarioText) ∧
    scenarioEngine.jsonParse scenarioText = .ok scenarioResult.toJson ∧
    asReviewResult scenarioResult.toJson = some scenarioResult ∧
    resultShown (finalState "key" scenarioEngine
      (fun _ => .response true (.ok (bodyWithText (.str scenarioText)))) scenarioState) = true ∧
    (tabContent scenarioResult .bugs).shownFindings =
      [{ suggestion := "no docstring", codeSnippet := "def f():" }] ∧
    tabContent scenarioResult .bugs =
      .blocks [{ suggestion := "no docstring", snippet := some "def f():" }] :=
  ⟨by decide, by decide, rfl, rfl, by decide,
   (handleReview_success_display "key" scenarioEngine
      (fun _ => .response true (.ok (bodyWithText (.str scenarioText)))) scenarioState
      (bodyWithText (.str scenarioText)) scenarioResult.toJson scenarioText scenarioResult
      (by decide) (by decide) rfl rfl (by decide) rfl (by decide)).2.1,
   (handleReview_success_display "key" scenarioEngine
      (fun _ => .response true (.ok (bodyWithText (.str scenarioText)))) scenarioState
      (bodyWithText (.str scenarioText)) scenarioResult.toJson scenarioText scenarioResult
      (by decide) (by decide) rfl rfl (by decide) rfl (by decide)).2.2.2.2.2.2.1,
   (handleReview_success_display "key" scenarioEngine
      (fun _ => .response true (.ok (bodyWithText (.str scenarioText)))) scenarioState
      (bodyWithText (.str scenarioText)) scenarioResult.toJson scenarioText scenarioResult
      (by decide) (by decide) rfl rfl (by decide) rfl (by decide)).2.2.2.2.2.2.2.2.2 (by decide)⟩

/-! ## The report (C6, C7) -/

theorem join_cons (a : String) (l : List String) : String.join (a :: l) = a ++ String.join l := by
  apply String.ext
  simp [String.join_eq, String.data_append]

theorem numberedFindings_cons (first : Nat) (f : Finding) (rest : List Finding) :
    numberedFindings first (f :: rest) = findingLines first f ++ numberedFindings (first + 1) rest := by
  simp [numberedFindings, List.enumFrom, join_cons]

/-- One round of the loop appends the lines of one finding. -/
theorem formatItem_eq (content : String) (index : Nat) (item : Finding) :
    formatItem content index item = content ++ findingLines (index + 1) item := by
  apply String.ext
  by_cases hc : item.codeSnippet = "" <;>
    simp [formatItem, findingLines, hc, String.data_append, List.append_assoc]

/-- The loop of `formatCategory` appends the numbered findings. -/
theorem forEachIndexed_formatItem (content : String) (index : Nat) (items : List Finding) :
    forEachIndexed formatItem content index items = content ++ numberedFindings (index + 1) items := by
  induction items generalizing content index with
  | nil =>
    apply String.ext
    simp [forEachIndexed, numberedFindings, String.join, String.data_append]
  | cons f rest ih =>
    rw [forEachIndexed, ih, formatItem_eq, numberedFindings_cons, String.append_assoc]

/-- The report ends with the bugs section and the closing rule. -/
theorem buildReport_tail (r : ReviewResult) (language : String) :
    ∃ head : String, buildReport r language =
      head ++ formatCategory "Potential Bugs & Errors" r.bugs ++ "========================\n" :=
  ⟨_, rfl⟩

/-- C6: the report is the header, the overall assessment, the three
category sections and the closing rule; a category section with at least
one finding is the upper-cased title line followed, for the findings in the
received order numbered from 1, by the suggestion line, the snippet line
exactly when the snippet is not empty, and a blank line; and with the bugs
list of the scenario the report has the line "1. Suggestion: no docstring"
immediately followed by the line "   Code Snippet: def f():". -/
theorem buildReport_category_layout (r : ReviewResult) (language : String) :
    buildReport r language =
      "Code Review Report\nLanguage: " ++ language ++ "\n" ++ "========================\n\n" ++
        ("OVERALL ASSESSMENT:\n" ++ r.overallAssessment ++ "\n\n") ++
        formatCategory "Readability" r.readability ++
        formatCategory "Modularity & Structure" r.modularity ++
        formatCategory "Potential Bugs & Errors" r.bugs ++ "========================\n" ∧
    (∀ (title : String) (items : List Finding), items ≠ [] →
      formatCategory title items =
        toUpperCase title ++ ":\n" ++
          String.join ((items.enumFrom 1).map (fun p =>
            toString p.1 ++ ". Suggestion: " ++ p.2.suggestion ++ "\n" ++
              (if p.2.codeSnippet ≠ "" then "   Code Snippet: " ++ p.2.codeSnippet ++ "\n" else "") ++
              "\n"))) ∧
    (r.bugs = [{ suggestion := "no docstring", codeSnippet := "def f():" }] →
      ∃ before after : List String,
        jsSplitLines (buildReport r language) =
          before ++ ["1. Suggestion: no docstring", "   Code Snippet: def f():"] ++ after) := by
  refine ⟨rfl, ?_, ?_⟩
  · intro title items hne
    cases items with
    | nil => exact absurd rfl hne
    | cons f rest =>
      simp only [formatCategory, List.length_cons, Nat.succ_ne_zero, if_false]
      rw [forEachIndexed_formatItem]
      rfl
  · intro hbugs
    obtain ⟨head, hh⟩ := buildReport_tail r language
    have hsec : formatCategory "Potential Bugs & Errors"
        [{ suggestion := "no docstring", codeSnippet := "def f():" }] =
        "POTENTIAL BUGS & ERRORS:" ++
          "\n1. Suggestion: no docstring\n   Code Snippet: def f():\n\n" := by decide
    have hdata : (buildReport r language).data =
        (head.data ++ "POTENTIAL BUGS & ERRORS:".data) ++
          '\n' :: "1. Suggestion: no docstring\n   Code Snippet: def f():\n\n========================\n".data := by
      rw [hh, hbugs, hsec]
      simp only [String.data_append, List.append_assoc]
      rfl
    refine ⟨(splitNewline (head.data ++ "POTENTIAL BUGS & ERRORS:".data)).map String.mk,
      ["", "========================", ""], ?_⟩
    rw [jsSplitLines, hdata, splitNewline_append, List.map_append]
    have hrest : (splitNewline
        "1. Suggestion: no docstring\n   Code Snippet: def f():\n\n========================\n".data).map
          String.mk =
        ["1. Suggestion: no docstring", "   Code Snippet: def f():", "", "========================", ""] := by
      decide
    rw [hrest]
    simp

/-- C6 at the scenario of the specification. -/
theorem buildReport_category_layout_witness :
    scenarioResult.bugs ≠ [] ∧
    formatCategory "Potential Bugs & Errors" scenarioResult.bugs =
      "POTENTIAL BUGS & ERRORS:\n1. Suggestion: no docstring\n   Code Snippet: def f():\n\n" ∧
    ∃ before after : List String,
      jsSplitLines (buildReport scenarioResult "python") =
        before ++ ["1. Suggestion: no docstring", "   Code Snippet: def f():"] ++ after :=
  ⟨by decide,
   by rw [(buildReport_category_layout scenarioResult "python").2.1 _ _ (by decide)]; decide,
   (buildReport_category_layout scenarioResult "python").2.2 rfl⟩

set_option maxRecDepth 20000 in
/-- The report of the scenario of the specification, in full. -/
theorem buildReport_scenario :
    buildReport scenarioResult "python" =
      "Code Review Report\nLanguage: python\n========================\n\nOVERALL ASSESSMENT:\nOK\n\nREADABILITY:\nNo specific issues found.\n\nMODULARITY & STRUCTURE:\nNo specific issues found.\n\nPOTENTIAL BUGS & ERRORS:\n1. Suggestion: no docstring\n   Code Snippet: def f():\n\n========================\n" := by
  decide

/-! ## The download on a document matching the schema -/

theorem asString_some {v : Option Json} {t : String} (h : asString v = some t) :
    v = some (.str t) := by
  cases v with
  | none => simp [asString] at h
  | some j =>
    cases j <;> simp [asString] at h
    subst h
    rfl

/-- What `asFinding` accepts: an object carrying both strings. -/
theorem asFinding_some {j : Json} {f : Finding} (h : asFinding j = some f) :
    ∃ fields, j = .obj fields ∧ fields.lookup "suggestion" = some (.str f.suggestion) ∧
      fields.lookup "codeSnippet" = some (.str f.codeSnippet) := by
  cases j with
  | obj fields =>
    simp only [asFinding] at h
    cases h1 : asString (fields.lookup "suggestion") with
    | none => simp [h1] at h
    | some sg =>
      cases h2 : asString (fields.lookup "codeSnippet") with
      | none => simp [h1, h2] at h
      | some cs =>
        simp only [h1, h2, Option.some.injEq] at h
        subst h
        exact ⟨fields, rfl, asString_some h1, asString_some h2⟩
  | null => simp [asFinding] at h
  | bool b => simp [asFinding] at h
  | num z t => simp [asFinding] at h
  | str t => simp [asFinding] at h
  | arr items => simp [asFinding] at h

/-- On an item matching the schema the callback does not throw and agrees
with the typed callback. -/
theorem formatItemJson_of_asFinding (eng : Engine) (content : String) (index : Nat) (j : Json)
    (f : Finding) (h : asFinding j = some f) :
    formatItemJson eng content index j = .ok (formatItem content index f) := by
  obtain ⟨fields, hj, hs, hc⟩ := asFinding_some h
  subst hj
  by_cases hcs : f.codeSnippet = "" <;>
    simp [formatItemJson, formatItem, readProp, Json.prop, hs, hc, bind, Except.bind,
      templateString_str, truthyOpt, Json.truthy, hcs]

/-- On items matching the schema the loop does not throw and agrees with
the typed loop. -/
theorem forEachJson_of_asFindingList (eng : Engine) (content : String) (index : Nat)
    (js : List Json) (fs : List Finding) (h : asFindingList js = some fs) :
    forEachJson eng content index js = .ok (forEachIndexed formatItem content index fs) := by
  induction js generalizing content index fs with
  | nil =>
    simp only [asFindingList, Option.some.injEq] at h
    subst h
    rfl
  | cons j rest ih =>
    simp only [asFindingList] at h
    cases h1 : asFinding j with
    | none => simp [h1] at h
    | some f =>
      cases h2 : asFindingList rest with
      | none => simp [h1, h2] at h
      | some fs' =>
        simp only [h1, h2, Option.some.injEq] at h
        subst h
        simp only [forEachJson, formatItemJson_of_asFinding eng content index j f h1, bind,
          Except.bind, forEachIndexed]
        exact ih _ _ fs' h2

theorem asFindingList_length {js : List Json} {fs : List Finding}
    (h : asFindingList js = some fs) : fs.length = js.length := by
  induction js generalizing fs with
  | nil =>
    simp only [asFindingList, Option.some.injEq] at h
    subst h
    rfl
  | cons j rest ih =>
    simp only [asFindingList] at h
    cases h1 : asFinding j with
    | none => simp [h1] at h
    | some f =>
      cases h2 : asFindingList rest with
      | none => simp [h1, h2] at h
      | some fs' =>
        simp only [h1, h2, Option.some.injEq] at h
        subst h
        simp [ih h2]

/-- On a list matching the schema `formatCategory` does not throw and
agrees with the typed function. -/
theorem formatCategoryJson_of_asFindings (eng : Engine) (title : String) (items : Option Json)
    (fs : List Finding) (h : asFindings items = some fs) :
    formatCategoryJson eng title items = .ok (formatCategory title fs) := by
  cases items with
  | none => simp [asFindings] at h
  | some v =>
    cases v with
    | arr js =>
      simp only [asFindings] at h
      have hlen := asFindingList_length h
      by_cases hz : js.length = 0
      · simp [formatCategoryJson, formatCategory, lengthIsZero, hz, hlen]
      · simp only [formatCategoryJson, formatCategory, lengthIsZero, hlen, hz, beq_iff_eq,
          if_false]
        exact forEachJson_of_asFindingList eng _ 0 js fs h
    | null => simp [asFindings] at h
    | bool b => simp [asFindings] at h
    | num z t => simp [asFindings] at h
    | str t => simp [asFindings] at h
    | obj fields => simp [asFindings] at h

/-- On a document matching the schema the text assembled is the report of
the typed document. -/
theorem reportContent_of_asReviewResult (eng : Engine) (doc : Json) (r : ReviewResult)
    (language : String) (h : asReviewResult doc = some r) :
    reportContent eng doc language = .ok (buildReport r language) := by
  cases doc with
  | obj fields =>
    simp only [asReviewResult] at h
    cases h0 : asString (fields.lookup "overallAssessment") with
    | none => simp [h0] at h
    | some o =>
      cases h1 : asFindings (fields.lookup "readability") with
      | none => simp [h0, h1] at h
      | some rd =>
        cases h2 : asFindings (fields.lookup "modularity") with
        | none => simp [h0, h1, h2] at h
        | some md =>
          cases h3 : asFindings (fields.lookup "bugs") with
          | none => simp [h0, h1, h2, h3] at h
          | some bg =>
            simp only [h0, h1, h2, h3, Option.some.injEq] at h
            subst h
            simp only [reportContent, Json.prop, asString_some h0, templateString_str,
              formatCategoryJson_of_asFindings eng _ _ rd h1,
              formatCategoryJson_of_asFindings eng _ _ md h2,
              formatCategoryJson_of_asFindings eng _ _ bg h3, bind, Except.bind]
            rfl
  | null => simp [asReviewResult] at h
  | bool b => simp [asReviewResult] at h
  | num z t => simp [asReviewResult] at h
  | str t => simp [asReviewResult] at h
  | arr items => simp [asReviewResult] at h

/-! ## The lines of the report -/

/-- The lines of a text that ends with a line break, followed by the
pieces of what comes after it. -/
theorem jsSplitLines_append (t b : String) :
    jsSplitLines (t ++ "\n" ++ b) = reportLines (t ++ "\n") ++ jsSplitLines b := by
  have h1 : (t ++ "\n" ++ b).data = t.data ++ '\n' :: b.data := by
    simp [String.data_append]
  have h2 : (t ++ "\n").data = t.data ++ '\n' :: [] := by
    simp [String.data_append]
  simp only [jsSplitLines, reportLines, h1, h2, splitNewline_append, List.map_append]
  simp [splitNewline]

/-- The typed loop over at least one item ends with a line break. -/
theorem forEachIndexed_formatItem_ends (content : String) (index : Nat) (f : Finding)
    (rest : List Finding) :
    ∃ t, forEachIndexed formatItem content index (f :: rest) = t ++ "\n" := by
  induction rest generalizing content index f with
  | nil => exact ⟨_, rfl⟩
  | cons g rest ih => exact ih (formatItem content index f) (index + 1) g

/-- Every category section ends with a line break. -/
theorem formatCategory_ends (title : String) (items : List Finding) :
    ∃ t, formatCategory title items = t ++ "\n" := by
  cases items with
  | nil =>
    refine ⟨toUpperCase title ++ ":\n" ++ "No specific issues found.\n", ?_⟩
    apply String.ext
    simp [formatCategory, String.data_append]
  | cons f rest =>
    obtain ⟨t, ht⟩ := forEachIndexed_formatItem_ends (toUpperCase title ++ ":\n") 0 f rest
    exact ⟨t, by simpa [formatCategory] using ht⟩

/-- The header of the report ends with a line break. -/
theorem reportHeader_ends (r : ReviewResult) (language : String) :
    ∃ t, reportHeader r language = t ++ "\n" := by
  refine ⟨"Code Review Report\nLanguage: " ++ language ++ "\n" ++ "========================\n\n" ++
    ("OVERALL ASSESSMENT:\n" ++ r.overallAssessment ++ "\n"), ?_⟩
  apply String.ext
  simp [reportHeader, String.data_append]

/-- The lines of the report: those of the header, those of the three
category sections, the closing rule, and the empty piece after the last
line break. -/
theorem jsSplitLines_buildReport (r : ReviewResult) (language : String) :
    jsSplitLines (buildReport r language) =
      reportLines (reportHeader r language) ++
      reportLines (formatCategory "Readability" r.readability) ++
      reportLines (formatCategory "Modularity & Structure" r.modularity) ++
      reportLines (formatCategory "Potential Bugs & Errors" r.bugs) ++
      ["========================", ""] := by
  obtain ⟨h, hh⟩ := reportHeader_ends r language
  obtain ⟨a, ha⟩ := formatCategory_ends "Readability" r.readability
  obtain ⟨b, hb⟩ := formatCategory_ends "Modularity & Structure" r.modularity
  obtain ⟨c, hc⟩ := formatCategory_ends "Potential Bugs & Errors" r.bugs
  have hreport : buildReport r language =
      reportHeader r language ++ formatCategory "Readability" r.readability ++
        formatCategory "Modularity & Structure" r.modularity ++
        formatCategory "Potential Bugs & Errors" r.bugs ++ "========================\n" := rfl
  have hrule : jsSplitLines "========================\n" = ["========================", ""] := by
    decide
  rw [hreport, hh, ha, hb, hc]
  rw [String.append_assoc (h ++ "\n" ++ (a ++ "\n") ++ (b ++ "\n")),
    String.append_assoc (h ++ "\n" ++ (a ++ "\n")),
    String.append_assoc (h ++ "\n"),
    jsSplitLines_append h, jsSplitLines_append a, jsSplitLines_append b, jsSplitLines_append c,
    hrule]
  simp [List.append_assoc]

/-! ## The download (C7) -/

/-- C7: the download depends on the held document and the language tag
only, so two builds on the same result and tag give the same text; for a
document matching the schema the text saved is the report of that
`ReviewResult`; the lines of that report are those of the header, those of
the three category sections and the closing rule, so the placeholder lines
of the report are those of its parts; and the section of an empty list is
the title line, the placeholder line "No specific issues found." once, and
a blank line. -/
theorem handleDownload_pure (eng : Engine) (s₁ s₂ : SessionState)
    (hreview : s₁.review = s₂.review) (hlanguage : s₁.language = s₂.language) :
    handleDownload eng s₁ = handleDownload eng s₂ ∧
    (∀ r : ReviewResult, asReviewResult s₁.review = some r →
      handleDownload eng s₁ =
        .saved "code_review_report.txt" "text/plain;charset=utf-8" (buildReport r s₁.language) ∧
      handleDownload eng s₂ =
        .saved "code_review_report.txt" "text/plain;charset=utf-8" (buildReport r s₁.language)) ∧
    (∀ (r : ReviewResult) (language : String),
      jsSplitLines (buildReport r language) =
        reportLines (reportHeader r language) ++
        reportLines (formatCategory "Readability" r.readability) ++
        reportLines (formatCategory "Modularity & Structure" r.modularity) ++
        reportLines (formatCategory "Potential Bugs & Errors" r.bugs) ++
        ["========================", ""] ∧
      (jsSplitLines (buildReport r language)).count "No specific issues found." =
        (reportLines (reportHeader r language)).count "No specific issues found." +
        (reportLines (formatCategory "Readability" r.readability)).count
          "No specific issues found." +
        (reportLines (formatCategory "Modularity & Structure" r.modularity)).count
          "No specific issues found." +
        (reportLines (formatCategory "Potential Bugs & Errors" r.bugs)).count
          "No specific issues found." ∧
      (r.readability = [] →
        reportLines (formatCategory "Readability" r.readability) =
          ["READABILITY:", "No specific issues found.", ""] ∧
        (reportLines (formatCategory "Readability" r.readability)).count
          "No specific issues found." = 1) ∧
      (r.modularity = [] →
        reportLines (formatCategory "Modularity & Structure" r.modularity) =
          ["MODULARITY & STRUCTURE:", "No specific issues found.", ""] ∧
        (reportLines (formatCategory "Modularity & Structure" r.modularity)).count
          "No specific issues found." = 1) ∧
      (r.bugs = [] →
        reportLines (formatCategory "Potential Bugs & Errors" r.bugs) =
          ["POTENTIAL BUGS & ERRORS:", "No specific issues found.", ""] ∧
        (reportLines (formatCategory "Potential Bugs & Errors" r.bugs)).count
          "No specific issues found." = 1)) := by
  have hsame : handleDownload eng s₁ = handleDownload eng s₂ := by
    simp [handleDownload, hreview, hlanguage]
  refine ⟨hsame, ?_, ?_⟩
  · intro r hr
    have h1 : handleDownload eng s₁ =
        .saved "code_review_report.txt" "text/plain;charset=utf-8" (buildReport r s₁.language) := by
      simp [handleDownload, truthy_of_asReviewResult hr,
        reportContent_of_asReviewResult eng s₁.review r s₁.language hr]
    exact ⟨h1, hsame ▸ h1⟩
  · intro r language
    refine ⟨jsSplitLines_buildReport r language, ?_, ?_, ?_, ?_⟩
    · rw [jsSplitLines_buildReport r language]
      simp only [List.count_append]
      have hrule : List.count "No specific issues found." ["========================", ""] = 0 := by
        decide
      rw [hrule]
      rfl
    · intro h
      rw [h]
      exact ⟨by decide, by decide⟩
    · intro h
      rw [h]
      exact ⟨by decide, by decide⟩
    · intro h
      rw [h]
      exact ⟨by decide, by decide⟩

/-- C7 at two sessions that hold the scenario result and differ in the
text area, the loading flag, the error and the active tab. -/
theorem handleDownload_pure_witness :
    handleDownload scenarioEngine { scenarioState with review := scenarioResult.toJson } =
      handleDownload scenarioEngine
        { code := "", language := "python", review := scenarioResult.toJson,
          isLoading := true, error := some "x", activeTab := .bugs } ∧
    asReviewResult scenarioResult.toJson = some scenarioResult ∧
    handleDownload scenarioEngine { scenarioState with review := scenarioResult.toJson } =
      .saved "code_review_report.txt" "text/plain;charset=utf-8"
        (buildReport scenarioResult "python") ∧
    scenarioResult.readability = [] ∧
    reportLines (formatCategory "Readability" scenarioResult.readability) =
      ["READABILITY:", "No specific issues found.", ""] ∧
    (reportLines (formatCategory "Readability" scenarioResult.readability)).count
      "No specific issues found." = 1 :=
  ⟨(handleDownload_pure scenarioEngine { scenarioState with review := scenarioResult.toJson }
      { code := "", language := "python", review := scenarioResult.toJson,
        isLoading := true, error := some "x", activeTab := .bugs } rfl rfl).1,
   asReviewResult_toJson scenarioResult,
   ((handleDownload_pure scenarioEngine { scenarioState with review := scenarioResult.toJson }
      { code := "", language := "python", review := scenarioResult.toJson,
        isLoading := true, error := some "x", activeTab := .bugs } rfl rfl).2.1
        scenarioResult (asReviewResult_toJson scenarioResult)).1,
   rfl,
   (((handleDownload_pure scenarioEngine { scenarioState with review := scenarioResult.toJson }
      { code := "", language := "python", review := scenarioResult.toJson,
        isLoading := true, error := some "x", activeTab := .bugs } rfl rfl).2.2
        scenarioResult "python").2.2.1 rfl).1,
   (((handleDownload_pure scenarioEngine { scenarioState with review := scenarioResult.toJson }
      { code := "", language := "python", review := scenarioResult.toJson,
        isLoading := true, error := some "x", activeTab := .bugs } rfl rfl).2.2
        scenarioResult "python").2.2.1 rfl).2⟩

/-! ## Failures (C8) -/

theorem append_ne_empty (a b : String) (h : a ≠ "") : a ++ b ≠ "" := by
  intro he
  apply h
  apply String.ext
  have hd := congrArg String.data he
  rw [String.data_append] at hd
  exact (List.append_eq_nil.mp hd).1

/-- C8, as the code has it.  A failure of local validation sets the error
message and changes nothing else: a result held before is kept in the
state (it is only hidden, as the result area is not shown while an error is
set) and the loading flag stays as it was.  A failure of a request that
was sent (transport failure, non-success status, body that is not JSON,
missing text field, text that does not parse) ends with the error message
set and shown, no result held and the loading flag off.  A request that
does not fail in one of these ways stores the parsed document. -/
theorem handleReview_failure_state (apiKey : String) (eng : Engine)
    (net : Request → FetchOutcome) (s : SessionState) :
    ((jsTrim s.code = "" ∨ apiKey = "") →
      (∃ m, (finalState apiKey eng net s).error = some m) ∧
      errorShown (finalState apiKey eng net s) = true ∧
      resultShown (finalState apiKey eng net s) = false ∧
      (finalState apiKey eng net s).review = s.review ∧
      (finalState apiKey eng net s).isLoading = s.isLoading) ∧
    (jsTrim s.code ≠ "" → apiKey ≠ "" →
      RequestFails eng (net (reviewRequest apiKey s.language s.code)) →
      (∃ m, (finalState apiKey eng net s).error = some m) ∧
      errorShown (finalState apiKey eng net s) = true ∧
      resultShown (finalState apiKey eng net s) = false ∧
      (finalState apiKey eng net s).review = .null ∧
      (finalState apiKey eng net s).isLoading = false) ∧
    (jsTrim s.code ≠ "" → apiKey ≠ "" →
      ¬ RequestFails eng (net (reviewRequest apiKey s.language s.code)) →
      ∃ doc, (finalState apiKey eng net s).review = doc ∧
        tryBlock eng (net (reviewRequest apiKey s.language s.code)) = .ok [.setReview doc] ∧
        (finalState apiKey eng net s).error = none) := by
  refine ⟨?_, ?_, ?_⟩
  · intro h
    have hr := handleReview_invalid apiKey eng net s h
    have hfinal : finalState apiKey eng net s =
        { s with error := some (if jsTrim s.code = "" then
            "Please enter or upload some code to review."
          else "API key is not configured. Please add VITE_GEMINI_API_KEY to your .env file.") } := by
      rw [finalState, hr]; rfl
    rw [hfinal]
    refine ⟨⟨_, rfl⟩, ?_, ?_, rfl, rfl⟩
    · by_cases hc : jsTrim s.code = "" <;> simp [errorShown, hc]
    · by_cases hc : jsTrim s.code = "" <;> simp [resultShown, errorShown, hc]
  · intro hcode hkey hfail
    rcases tryBlock_of_fails eng _ hfail with ⟨m, hm⟩ | hg
    · rw [finalState_of_throw apiKey eng net s hcode hkey m hm]
      have hne : "An error occurred: " ++ m ≠ "" := append_ne_empty _ _ (by decide)
      refine ⟨⟨_, rfl⟩, ?_, ?_, rfl, rfl⟩
      · simp [errorShown, hne]
      · simp [resultShown, Json.truthy]
    · rw [finalState_of_effects apiKey eng net s hcode hkey _ hg]
      refine ⟨⟨_, rfl⟩, ?_, ?_, rfl, rfl⟩
      · simp [errorShown, applyEffects, Effect.apply]
      · simp [resultShown, applyEffects, Effect.apply, Json.truthy]
  · intro hcode hkey hok
    obtain ⟨doc, hd⟩ := tryBlock_of_not_fails eng _ hok
    rw [finalState_of_effects apiKey eng net s hcode hkey _ hd]
    exact ⟨doc, rfl, hd, rfl⟩

/-- A response whose text is not the scenario text fails in the scenario
engine. -/
theorem oops_fails :
    RequestFails scenarioEngine (.response true (.ok (bodyWithText (.str "oops")))) := by
  refine Or.inr ⟨"Unexpected end of JSON input", ?_⟩
  have ht : textField (bodyWithText (.str "oops")) = some (.str "oops") := rfl
  rw [ht, templateString_str]
  rfl

/-- The response carrying the scenario text does not fail in the scenario
engine. -/
theorem scenario_succeeds :
    ¬ RequestFails scenarioEngine (.response true (.ok (bodyWithText (.str scenarioText)))) := by
  have ht : textField (bodyWithText (.str scenarioText)) = some (.str scenarioText) := rfl
  rintro (hf | ⟨m, hm⟩)
  · rw [ht] at hf
    revert hf
    decide
  · rw [ht, templateString_str] at hm
    cases hm

/-- The continuation on the response carrying the scenario text. -/
theorem scenario_finish :
    handleReviewFinish scenarioEngine (.response true (.ok (bodyWithText (.str scenarioText)))) =
      [.setReview scenarioResult.toJson, .setIsLoading false] := by
  have ht : textField (bodyWithText (.str scenarioText)) = some (.str scenarioText) := rfl
  have hb : bodyWithText (.str scenarioText) ≠ .null := by
    intro h
    cases h
  have htruthy : truthyOpt (some (.str scenarioText)) = true := by decide
  have hparse : scenarioEngine.jsonParse scenarioText = .ok scenarioResult.toJson := rfl
  rw [handleReviewFinish, tryBlock_ok scenarioEngine _ hb, ht, templateString_str, if_pos htruthy,
    hparse]
  rfl

/-- C8 at an empty text area with an earlier result held, and at a request
whose response text does not parse. -/
theorem handleReview_failure_state_witness :
    (jsTrim staleState.code = "" ∨ "key" = "") ∧
    (finalState "key" scenarioEngine (fun _ => .rejected "Failed to fetch") staleState).review =
      staleState.review ∧
    jsTrim scenarioState.code ≠ "" ∧ "key" ≠ "" ∧
    RequestFails scenarioEngine (.response true (.ok (bodyWithText (.str "oops")))) ∧
    (finalState "key" scenarioEngine
      (fun _ => .response true (.ok (bodyWithText (.str "oops")))) scenarioState).review = .null ∧
    (finalState "key" scenarioEngine
      (fun _ => .response true (.ok (bodyWithText (.str "oops")))) scenarioState).isLoading = false ∧
    ¬ RequestFails scenarioEngine (.response true (.ok (bodyWithText (.str scenarioText)))) ∧
    (∃ doc, (finalState "key" scenarioEngine
        (fun _ => .response true (.ok (bodyWithText (.str scenarioText)))) scenarioState).review = doc ∧
      tryBlock scenarioEngine (.response true (.ok (bodyWithText (.str scenarioText)))) =
        .ok [.setReview doc] ∧
      (finalState "key" scenarioEngine
        (fun _ => .response true (.ok (bodyWithText (.str scenarioText)))) scenarioState).error =
          none) :=
  ⟨Or.inl (by decide),
   ((handleReview_failure_state "key" scenarioEngine (fun _ => .rejected "Failed to fetch")
      staleState).1 (Or.inl (by decide))).2.2.2.1,
   by decide, by decide,
   oops_fails,
   ((handleReview_failure_state "key" scenarioEngine
      (fun _ => .response true (.ok (bodyWithText (.str "oops")))) scenarioState).2.1
      (by decide) (by decide) oops_fails).2.2.2.1,
   ((handleReview_failure_state "key" scenarioEngine
      (fun _ => .response true (.ok (bodyWithText (.str "oops")))) scenarioState).2.1
      (by decide) (by decide) oops_fails).2.2.2.2,
   scenario_succeeds,
   (handleReview_failure_state "key" scenarioEngine
      (fun _ => .response true (.ok (bodyWithText (.str scenarioText)))) scenarioState).2.2
      (by decide) (by decide) scenario_succeeds⟩

/-- C8 as stated fails: when the text area is empty and an earlier result
is held, `handleReview` sets the error and returns; the earlier result is
still in the state and the download button is still offered. -/
theorem handleReview_stale_result_counterexample :
    jsTrim staleState.code = "" ∧
    (finalState "key" scenarioEngine (fun _ => .rejected "Failed to fetch") staleState).error =
      some "Please enter or upload some code to review." ∧
    (finalState "key" scenarioEngine (fun _ => .rejected "Failed to fetch") staleState).review =
      scenarioResult.toJson ∧
    (finalState "key" scenarioEngine (fun _ => .rejected "Failed to fetch") staleState).review ≠
      .null ∧
    downloadOffered
      (finalState "key" scenarioEngine (fun _ => .rejected "Failed to fetch") staleState) = true := by
  have hfinal : finalState "key" scenarioEngine (fun _ => .rejected "Failed to fetch") staleState =
      { staleState with error := some "Please enter or upload some code to review." } := by
    rw [finalState, handleReview_invalid "key" scenarioEngine _ staleState (Or.inl (by decide))]
    rfl
  rw [hfinal]
  refine ⟨by decide, rfl, rfl, ?_, rfl⟩
  intro h
  cases h

/-! ## The session invariant -/

/-- The effects at the click when validation fails. -/
theorem handleReviewStart_invalid (apiKey : String) (s : SessionState)
    (h : jsTrim s.code = "" ∨ apiKey = "") :
    handleReviewStart apiKey s =
      [.setError (some (if jsTrim s.code = "" then "Please enter or upload some code to review."
        else "API key is not configured. Please add VITE_GEMINI_API_KEY to your .env file."))] := by
  by_cases hc : jsTrim s.code = ""
  · simp [handleReviewStart, hc]
  · have hk : apiKey = "" := by
      cases h with
      | inl h => exact absurd h hc
      | inr h => exact h
    simp [handleReviewStart, hc, hk]

/-- Every event the session accepts preserves the invariant. -/
theorem step_preserves (apiKey : String) (eng : Engine) (σ σ' : System) (e : Event)
    (hinv : SessionInvariant σ) (hstep : step apiKey eng σ e = some σ') :
    SessionInvariant σ' := by
  obtain ⟨hlen, hiff, hload⟩ := hinv
  cases e with
  | typeCode text =>
    simp only [step, Option.some.injEq] at hstep
    subst hstep
    exact ⟨hlen, hiff, hload⟩
  | fileLoaded text =>
    simp only [step, Option.some.injEq] at hstep
    subst hstep
    exact ⟨hlen, hiff, hload⟩
  | selectLanguage l =>
    simp only [step] at hstep
    split at hstep
    · simp only [Option.some.injEq] at hstep
      subst hstep
      exact ⟨hlen, hiff, hload⟩
    · cases hstep
  | clickReview =>
    simp only [step] at hstep
    split at hstep
    · cases hstep
    · rename_i hdis
      simp only [Option.some.injEq] at hstep
      subst hstep
      have hoff : σ.ui.isLoading = false := by simpa [submitDisabled] using hdis
      have hnone : σ.inFlight = [] := by
        by_contra hne
        have := hiff.mpr hne
        rw [hoff] at this
        cases this
      by_cases hvalid : jsTrim σ.ui.code = "" ∨ apiKey = ""
      · have hstart : ∃ m, handleReviewStart apiKey σ.ui = [.setError (some m)] :=
          ⟨_, handleReviewStart_invalid apiKey σ.ui hvalid⟩
        obtain ⟨m, hm⟩ := hstart
        simp only [hm, hnone, requestsOf, applyEffects, List.foldl, Effect.apply, List.filterMap,
          List.append_nil]
        refine ⟨by simp, ?_, ?_⟩
        · simp [hoff]
        · intro h
          rw [hoff] at h
          cases h
      · have hc : jsTrim σ.ui.code ≠ "" := fun h => hvalid (Or.inl h)
        have hk : apiKey ≠ "" := fun h => hvalid (Or.inr h)
        simp only [handleReviewStart, if_neg hc, if_neg hk, hnone, requestsOf, applyEffects,
          List.foldl, Effect.apply, List.filterMap, List.nil_append]
        exact ⟨by simp, by simp, fun _ => ⟨rfl, rfl, rfl⟩⟩
  | fetchSettled o =>
    simp only [step] at hstep
    split at hstep
    · cases hstep
    · rename_i req rest hin
      simp only [Option.some.injEq] at hstep
      subst hstep
      have hrest : rest = [] := by
        rw [hin] at hlen
        cases rest with
        | nil => rfl
        | cons a b => simp at hlen
      have hfin := (applyEffects_handleReviewFinish eng o σ.ui).1
      refine ⟨by simp [hrest], ?_, ?_⟩
      · simp [hrest, hfin]
      · intro h
        rw [hfin] at h
        cases h
  | clickTab t =>
    simp only [step] at hstep
    split at hstep
    · rename_i hshown
      simp only [Option.some.injEq] at hstep
      subst hstep
      have hoff : σ.ui.isLoading = false := by
        simp only [resultShown, Bool.and_eq_true, Bool.not_eq_true'] at hshown
        exact hshown.1.2
      refine ⟨hlen, ?_, ?_⟩
      · simpa [applyEffects, Effect.apply] using hiff
      · intro h
        simp only [applyEffects, List.foldl, Effect.apply] at h
        rw [hoff] at h
        cases h
    · cases hstep
  | clickDownload =>
    simp only [step] at hstep
    split at hstep
    · simp only [Option.some.injEq] at hstep
      subst hstep
      exact ⟨hlen, hiff, hload⟩
    · cases hstep

/-- The invariant holds in every state the session can be in. -/
theorem reachable_invariant (apiKey : String) (eng : Engine) (σ : System)
    (h : Reachable apiKey eng σ) : SessionInvariant σ := by
  induction h with
  | init => exact ⟨by simp, by simp [initialState], fun h => by simp [initialState] at h⟩
  | next e _ hstep ih => exact step_preserves apiKey eng _ _ e ih hstep

/-- The session can be in the state `loadingSystem`. -/
theorem loadingSystem_reachable : Reachable "key" scenarioEngine loadingSystem := by
  have h1 : Reachable "key" scenarioEngine
      { ui := { initialState with code := "def f():\n  pass" }, inFlight := [] } :=
    Reachable.next (.typeCode "def f():\n  pass") Reachable.init rfl
  refine Reachable.next .clickReview h1 ?_
  simp only [step, submitDisabled, initialState, Bool.false_eq_true, if_false]
  have hc : jsTrim "def f():\n  pass" ≠ "" := by decide
  simp [handleReviewStart, hc, requestsOf, applyEffects, Effect.apply, loadingSystem]

/-! ## Reset at the start of a review (C9) -/

/-- C9: a review that passes validation calls, before `fetch`, the setters
that turn the loading flag on, clear the result and the error and select
the "overall" tab; in every state the session can be in with the loading
flag on, there is no result, no error and the active tab is "overall"; the
tab buttons accept no click while the result area is not shown; and in
every step in which the held result changes, the active tab afterwards is
"overall". -/
theorem review_start_resets (apiKey : String) (eng : Engine) (σ : System)
    (hσ : Reachable apiKey eng σ) :
    (∀ s : SessionState, jsTrim s.code ≠ "" → apiKey ≠ "" →
      handleReviewStart apiKey s =
        [.setIsLoading true, .setError none, .setReview .null, .setActiveTab .overall,
         .fetch (reviewRequest apiKey s.language s.code)] ∧
      (applyEffects s (handleReviewStart apiKey s)).isLoading = true ∧
      (applyEffects s (handleReviewStart apiKey s)).review = .null ∧
      (applyEffects s (handleReviewStart apiKey s)).error = none ∧
      (applyEffects s (handleReviewStart apiKey s)).activeTab = .overall) ∧
    (σ.ui.isLoading = true →
      σ.ui.review = .null ∧ σ.ui.error = none ∧ σ.ui.activeTab = .overall) ∧
    (resultShown σ.ui = false → ∀ t : TabId, step apiKey eng σ (.clickTab t) = none) ∧
    (σ.ui.isLoading = true → resultShown σ.ui = false) ∧
    (∀ (e : Event) (σ' : System), step apiKey eng σ e = some σ' →
      σ'.ui.review ≠ σ.ui.review → σ'.ui.activeTab = .overall) := by
  obtain ⟨hlen, hiff, hload⟩ := reachable_invariant apiKey eng σ hσ
  refine ⟨?_, hload, ?_, ?_, ?_⟩
  · intro s hc hk
    have hstart : handleReviewStart apiKey s =
        [.setIsLoading true, .setError none, .setReview .null, .setActiveTab .overall,
         .fetch (reviewRequest apiKey s.language s.code)] := by
      simp [handleReviewStart, hc, hk]
    rw [hstart]
    exact ⟨rfl, rfl, rfl, rfl, rfl⟩
  · intro hhidden t
    simp [step, hhidden]
  · intro h
    simp [resultShown, h]
  · intro e σ' hstep hne
    cases e with
    | typeCode text =>
      simp only [step, Option.some.injEq] at hstep
      subst hstep
      exact absurd rfl hne
    | fileLoaded text =>
      simp only [step, Option.some.injEq] at hstep
      subst hstep
      exact absurd rfl hne
    | selectLanguage l =>
      simp only [step] at hstep
      split at hstep
      · simp only [Option.some.injEq] at hstep
        subst hstep
        exact absurd rfl hne
      · cases hstep
    | clickReview =>
      simp only [step] at hstep
      split at hstep
      · cases hstep
      · simp only [Option.some.injEq] at hstep
        subst hstep
        by_cases hvalid : jsTrim σ.ui.code = "" ∨ apiKey = ""
        · rw [handleReviewStart_invalid apiKey σ.ui hvalid] at hne
          exact absurd rfl hne
        · have hc : jsTrim σ.ui.code ≠ "" := fun h => hvalid (Or.inl h)
          have hk : apiKey ≠ "" := fun h => hvalid (Or.inr h)
          simp [handleReviewStart, hc, hk, applyEffects, Effect.apply]
    | fetchSettled o =>
      simp only [step] at hstep
      split at hstep
      · cases hstep
      · rename_i req rest hin
        simp only [Option.some.injEq] at hstep
        subst hstep
        have hon : σ.ui.isLoading = true := hiff.mpr (by rw [hin]; simp)
        rw [(applyEffects_handleReviewFinish eng o σ.ui).2.1]
        exact (hload hon).2.2
    | clickTab t =>
      simp only [step] at hstep
      split at hstep
      · simp only [Option.some.injEq] at hstep
        subst hstep
        exact absurd rfl hne
      · cases hstep
    | clickDownload =>
      simp only [step] at hstep
      split at hstep
      · simp only [Option.some.injEq] at hstep
        subst hstep
        exact absurd rfl hne
      · cases hstep

/-- C9 at the state right after a valid click. -/
theorem review_start_resets_witness :
    loadingSystem.ui.isLoading = true ∧
    (loadingSystem.ui.review = .null ∧ loadingSystem.ui.error = none ∧
      loadingSystem.ui.activeTab = .overall) ∧
    resultShown loadingSystem.ui = false ∧
    step "key" scenarioEngine loadingSystem (.clickTab .bugs) = none ∧
    jsTrim "x = 1" ≠ "" ∧ "key" ≠ "" ∧
    (applyEffects { staleState with code := "x = 1" }
      (handleReviewStart "key" { staleState with code := "x = 1" })).activeTab = .overall ∧
    (applyEffects loadingSystem.ui
      (handleReviewFinish scenarioEngine
        (.response true (.ok (bodyWithText (.str scenarioText)))))).review ≠
      loadingSystem.ui.review ∧
    (applyEffects loadingSystem.ui
      (handleReviewFinish scenarioEngine
        (.response true (.ok (bodyWithText (.str scenarioText)))))).activeTab = .overall :=
  ⟨rfl,
   (review_start_resets "key" scenarioEngine loadingSystem loadingSystem_reachable).2.1 rfl,
   rfl,
   (review_start_resets "key" scenarioEngine loadingSystem loadingSystem_reachable).2.2.1 rfl .bugs,
   by decide, by decide,
   ((review_start_resets "key" scenarioEngine loadingSystem loadingSystem_reachable).1
      { staleState with code := "x = 1" } (by decide) (by decide)).2.2.2.2,
   (by
    rw [scenario_finish]
    intro h
    cases h),
   (review_start_resets "key" scenarioEngine loadingSystem loadingSystem_reachable).2.2.2.2
      (.fetchSettled (.response true (.ok (bodyWithText (.str scenarioText)))))
      { ui := applyEffects loadingSystem.ui
          (handleReviewFinish scenarioEngine
            (.response true (.ok (bodyWithText (.str scenarioText)))))
        inFlight := [] }
      rfl
      (by
        rw [scenario_finish]
        intro h
        cases h)⟩

/-! ## One request at a time (C10) -/

/-- C10: in every state the session can be in, at most one request is
outstanding; one is outstanding only while the loading flag is on; while
the flag is on the review button is disabled and a click on it is not
accepted; the flag goes from on to off only in the step in which the
outstanding request settles, after which none is outstanding; and a step
that sends a request starts from a state with none outstanding. -/
theorem single_request_in_flight (apiKey : String) (eng : Engine) (σ : System)
    (hσ : Reachable apiKey eng σ) :
    σ.inFlight.length ≤ 1 ∧
    (σ.inFlight ≠ [] → σ.ui.isLoading = true) ∧
    (σ.ui.isLoading = true →
      submitDisabled σ.ui = true ∧ step apiKey eng σ .clickReview = none) ∧
    (∀ (e : Event) (σ' : System), step apiKey eng σ e = some σ' →
      σ.ui.isLoading = true → σ'.ui.isLoading = false →
      (∃ o, e = .fetchSettled o) ∧ σ.inFlight.length = 1 ∧ σ'.inFlight = []) ∧
    (∀ (e : Event) (σ' : System), step apiKey eng σ e = some σ' →
      σ.inFlight.length < σ'.inFlight.length →
      σ.inFlight = [] ∧ σ.ui.isLoading = false ∧ σ'.inFlight.length = 1) := by
  have hinv := reachable_invariant apiKey eng σ hσ
  obtain ⟨hlen, hiff, hload⟩ := hinv
  refine ⟨hlen, hiff.mpr, ?_, ?_, ?_⟩
  · intro hon
    exact ⟨hon, by simp [step, submitDisabled, hon]⟩
  · intro e σ' hstep hon hoff
    have hinv' := step_preserves apiKey eng σ σ' e ⟨hlen, hiff, hload⟩ hstep
    have hnone : σ'.inFlight = [] := by
      by_contra hne
      have := hinv'.2.1.mpr hne
      rw [hoff] at this
      cases this
    have hone : σ.inFlight.length = 1 := by
      have hne := hiff.mp hon
      cases hin : σ.inFlight with
      | nil => exact absurd hin hne
      | cons a rest =>
        rw [hin] at hlen
        cases rest with
        | nil => rfl
        | cons b c => simp at hlen
    refine ⟨?_, hone, hnone⟩
    cases e with
    | fetchSettled o => exact ⟨o, rfl⟩
    | typeCode text =>
      simp only [step, Option.some.injEq] at hstep
      subst hstep
      simp only [applyEffects, List.foldl, Effect.apply] at hoff
      rw [hon] at hoff
      cases hoff
    | fileLoaded text =>
      simp only [step, Option.some.injEq] at hstep
      subst hstep
      simp only [applyEffects, List.foldl, Effect.apply] at hoff
      rw [hon] at hoff
      cases hoff
    | selectLanguage l =>
      simp only [step] at hstep
      split at hstep
      · simp only [Option.some.injEq] at hstep
        subst hstep
        simp only [applyEffects, List.foldl, Effect.apply] at hoff
        rw [hon] at hoff
        cases hoff
      · cases hstep
    | clickReview =>
      simp [step, submitDisabled, hon] at hstep
    | clickTab t =>
      simp [step, resultShown, hon] at hstep
    | clickDownload =>
      simp only [step] at hstep
      split at hstep
      · simp only [Option.some.injEq] at hstep
        subst hstep
        rw [hon] at hoff
        cases hoff
      · cases hstep
  · intro e σ' hstep hgrow
    have hinv' := step_preserves apiKey eng σ σ' e ⟨hlen, hiff, hload⟩ hstep
    have hnone : σ.inFlight = [] := by
      cases hin : σ.inFlight with
      | nil => rfl
      | cons a rest =>
        have := hinv'.1
        rw [hin] at hgrow
        simp at hgrow
        omega
    have hoff : σ.ui.isLoading = false := by
      cases hl : σ.ui.isLoading with
      | false => rfl
      | true => exact absurd hnone (hiff.mp hl)
    refine ⟨hnone, hoff, ?_⟩
    have := hinv'.1
    rw [hnone] at hgrow
    simp at hgrow
    omega

/-- C10 at the state right after a valid click. -/
theorem single_request_in_flight_witness :
    loadingSystem.inFlight.length = 1 ∧ loadingSystem.inFlight.length ≤ 1 ∧
    loadingSystem.ui.isLoading = true ∧
    step "key" scenarioEngine loadingSystem .clickReview = none ∧
    (applyEffects loadingSystem.ui
      (handleReviewFinish scenarioEngine (.rejected "Failed to fetch"))).isLoading = false ∧
    (step "key" scenarioEngine loadingSystem (.fetchSettled (.rejected "Failed to fetch")) =
      some { ui := applyEffects loadingSystem.ui
               (handleReviewFinish scenarioEngine (.rejected "Failed to fetch"))
             inFlight := [] }) :=
  ⟨rfl,
   (single_request_in_flight "key" scenarioEngine loadingSystem loadingSystem_reachable).1,
   (single_request_in_flight "key" scenarioEngine loadingSystem loadingSystem_reachable).2.1
     (by simp [loadingSystem]),
   ((single_request_in_flight "key" scenarioEngine loadingSystem loadingSystem_reachable).2.2.1
     rfl).2,
   rfl,
   by
    have h := ((single_request_in_flight "key" scenarioEngine loadingSystem
      loadingSystem_reachable).2.2.2.1
      (.fetchSettled (.rejected "Failed to fetch"))
      { ui := applyEffects loadingSystem.ui
          (handleReviewFinish scenarioEngine (.rejected "Failed to fetch"))
        inFlight := [] }
      rfl rfl rfl).2.2
    exact h ▸ rfl⟩

end CodeReviewAssistant
